import Mathlib

/-!
Verification of the orion MAC engines: a shallow embedding of
src/hazardous/mac/poly1305.rs and src/hazardous/mac/hmac.rs together with
theorems settling the specification claims about them.  Machine integers are
embedded as natural numbers with explicit truncation where the Rust code can
wrap; byte slices are lists of naturals.
-/

set_option maxRecDepth 8000
set_option maxHeartbeats 1000000

namespace Orion

/-- Truncation to 32 bits, the wrapping semantics of Rust u32 arithmetic. -/
def u32 (x : Nat) : Nat := x % 2 ^ 32

/-- Truncation to 64 bits, the wrapping semantics of Rust u64 arithmetic. -/
def u64 (x : Nat) : Nat := x % 2 ^ 64

/-- Little-endian read of four consecutive bytes starting at index i, the
embedding of LittleEndian::read_u32 applied to a 4-byte subslice. -/
def read32 (data : List Nat) (i : Nat) : Nat :=
  data.getD i 0 + 2 ^ 8 * data.getD (i + 1) 0 + 2 ^ 16 * data.getD (i + 2) 0 +
    2 ^ 24 * data.getD (i + 3) 0

/-- Little-endian serialization of one 32-bit word into four bytes, the
embedding of one step of LittleEndian::write_u32_into. -/
def le32 (w : Nat) : List Nat :=
  [w % 2 ^ 8, w / 2 ^ 8 % 2 ^ 8, w / 2 ^ 16 % 2 ^ 8, w / 2 ^ 24 % 2 ^ 8]

/-- Little-endian serialization of a 64-bit value into eight bytes. -/
def le64 (w : Nat) : List Nat := le32 (u32 w) ++ le32 (u32 (w >>> 32))

/-- Copy the byte list xs into the list l starting at index i, the embedding
of an in-place write into a subrange of a fixed buffer. -/
def writeAt (l : List Nat) (i : Nat) (xs : List Nat) : List Nat :=
  l.take i ++ xs ++ l.drop (i + xs.length)

def POLY1305_BLOCKSIZE : Nat := 16

def SHA2_BLOCKSIZE : Nat := 128

def HLEN : Nat := 64

/-- Error values of the library: FinalizationCryptoError, UnknownCryptoError,
ValidationCryptoError and the InvalidLength construction failure. -/
inductive Err
  | finalized
  | unknown
  | invalidTag
  | invalidLength
deriving DecidableEq

/-- Modelled from the spec: the construct_tag macro is not under src.  Spec
section 4.1: a Tag wraps exactly n bytes and from_slice fails on any other
length. -/
def tag_from_slice (n : Nat) (xs : List Nat) : Option (List Nat) :=
  if xs.length = n then some xs else none

/-- The Poly1305 streaming state (struct Poly1305 in poly1305.rs); the arrays
a, r and s are laid out as individual limb and word fields. -/
structure Poly1305 where
  a0 : Nat
  a1 : Nat
  a2 : Nat
  a3 : Nat
  a4 : Nat
  r0 : Nat
  r1 : Nat
  r2 : Nat
  r3 : Nat
  r4 : Nat
  s0 : Nat
  s1 : Nat
  s2 : Nat
  s3 : Nat
  leftover : Nat
  buffer : List Nat
  is_finalized : Bool
deriving DecidableEq

/-- Stage h += m of Poly1305::process_block: parse the 16-byte block into
five 26-bit limbs through overlapping little-endian windows, OR the high bit
into limb 4 when the state is not finalized, and add into the accumulator. -/
def poly_add_m (fin : Bool) (a0 a1 a2 a3 a4 : Nat) (data : List Nat) :
    Nat × Nat × Nat × Nat × Nat :=
  let hibit : Nat := if fin then 0 else 1 <<< 24
  (u32 (a0 + (read32 data 0 &&& 0x3ffffff)),
   u32 (a1 + (read32 data 3 >>> 2 &&& 0x3ffffff)),
   u32 (a2 + (read32 data 6 >>> 4 &&& 0x3ffffff)),
   u32 (a3 + (read32 data 9 >>> 6 &&& 0x3ffffff)),
   u32 (a4 + (read32 data 12 >>> 8 ||| hibit)))

/-- Stage h *= r of Poly1305::process_block: the five 64-bit schoolbook
product rows with the wrap terms folded through s_i = 5 * r_i. -/
def poly_mul_r (r0 r1 r2 r3 r4 h0 h1 h2 h3 h4 : Nat) :
    Nat × Nat × Nat × Nat × Nat :=
  let s1 := u32 (r1 * 5)
  let s2 := u32 (r2 * 5)
  let s3 := u32 (r3 * 5)
  let s4 := u32 (r4 * 5)
  (u64 (h0 * r0 + h1 * s4 + h2 * s3 + h3 * s2 + h4 * s1),
   u64 (h0 * r1 + h1 * r0 + h2 * s4 + h3 * s3 + h4 * s2),
   u64 (h0 * r2 + h1 * r1 + h2 * r0 + h3 * s4 + h4 * s3),
   u64 (h0 * r3 + h1 * r2 + h2 * r1 + h3 * r0 + h4 * s4),
   u64 (h0 * r4 + h1 * r3 + h2 * r2 + h3 * r1 + h4 * r0))

/-- Stage partial h %= p of Poly1305::process_block: 26-bit carries propagate
d0 through d4, the top carry times 5 folds back into h0, and its carry moves
into h1. -/
def poly_carry (d0 d1 d2 d3 d4 : Nat) : Nat × Nat × Nat × Nat × Nat :=
  let c0 := u32 (d0 >>> 26)
  let h0 := d0 &&& 0x3ffffff
  let e1 := u64 (d1 + c0)
  let c1 := u32 (e1 >>> 26)
  let h1 := e1 &&& 0x3ffffff
  let e2 := u64 (d2 + c1)
  let c2 := u32 (e2 >>> 26)
  let h2 := e2 &&& 0x3ffffff
  let e3 := u64 (d3 + c2)
  let c3 := u32 (e3 >>> 26)
  let h3 := e3 &&& 0x3ffffff
  let e4 := u64 (d4 + c3)
  let c4 := u32 (e4 >>> 26)
  let h4 := e4 &&& 0x3ffffff
  let f0 := u32 (h0 + c4 * 5)
  let c5 := f0 >>> 26
  let g0 := f0 &&& 0x3ffffff
  let g1 := u32 (h1 + c5)
  (g0, g1, h2, h3, h4)

/-- Poly1305::process_block: length-checked absorption of one 16-byte block
into the accumulator. -/
def Poly1305.process_block (st : Poly1305) (data : List Nat) :
    Option Poly1305 :=
  if data.length ≠ POLY1305_BLOCKSIZE then none
  else
    let h := poly_add_m st.is_finalized st.a0 st.a1 st.a2 st.a3 st.a4 data
    let d := poly_mul_r st.r0 st.r1 st.r2 st.r3 st.r4
      h.1 h.2.1 h.2.2.1 h.2.2.2.1 h.2.2.2.2
    let hh := poly_carry d.1 d.2.1 d.2.2.1 d.2.2.2.1 d.2.2.2.2
    some { st with a0 := hh.1, a1 := hh.2.1, a2 := hh.2.2.1,
                   a3 := hh.2.2.2.1, a4 := hh.2.2.2.2 }

/-- Stage "fully carry h" of Poly1305::process_end_of_stream: 26-bit
carries through all five limbs, the top carry times 5 folded into limb 0,
and its carry into limb 1. -/
def eos_carry (a0 a1 a2 a3 a4 : Nat) : Nat × Nat × Nat × Nat × Nat :=
  let c := a1 >>> 26
  let h1 := a1 &&& 0x3ffffff
  let h2 := u32 (a2 + c)
  let c := h2 >>> 26
  let h2 := h2 &&& 0x3ffffff
  let h3 := u32 (a3 + c)
  let c := h3 >>> 26
  let h3 := h3 &&& 0x3ffffff
  let h4 := u32 (a4 + c)
  let c := h4 >>> 26
  let h4 := h4 &&& 0x3ffffff
  let h0 := u32 (a0 + c * 5)
  let c := h0 >>> 26
  let h0 := h0 &&& 0x3ffffff
  let h1 := u32 (h1 + c)
  (h0, h1, h2, h3, h4)

/-- Stages "compute h + -p" and "select h if h < p, or h + -p if h >= p" of
Poly1305::process_end_of_stream: the g-chain adds 5 and subtracts 2^130 at
the top limb in wrapping 32-bit arithmetic, the mask (g4 >> 31) - 1 is
all-ones exactly when no borrow happened, and the result is blended without
a branch. -/
def eos_select (h0 h1 h2 h3 h4 : Nat) : Nat × Nat × Nat × Nat × Nat :=
  let g0 := u32 (h0 + 5)
  let c := g0 >>> 26
  let g0 := g0 &&& 0x3ffffff
  let g1 := u32 (h1 + c)
  let c := g1 >>> 26
  let g1 := g1 &&& 0x3ffffff
  let g2 := u32 (h2 + c)
  let c := g2 >>> 26
  let g2 := g2 &&& 0x3ffffff
  let g3 := u32 (h3 + c)
  let c := g3 >>> 26
  let g3 := g3 &&& 0x3ffffff
  let g4 := u32 (h4 + c + (2 ^ 32 - (1 <<< 26)))
  let mask := u32 ((g4 >>> (32 - 1)) + (2 ^ 32 - 1))
  let g0 := g0 &&& mask
  let g1 := g1 &&& mask
  let g2 := g2 &&& mask
  let g3 := g3 &&& mask
  let g4 := g4 &&& mask
  let mask2 := mask ^^^ 0xffffffff
  ((h0 &&& mask2) ||| g0, (h1 &&& mask2) ||| g1, (h2 &&& mask2) ||| g2,
   (h3 &&& mask2) ||| g3, (h4 &&& mask2) ||| g4)

/-- Stage "h = h % (2^128)" of Poly1305::process_end_of_stream: repack the
five 26-bit limbs into four 32-bit little-endian words. -/
def eos_repack (h0 h1 h2 h3 h4 : Nat) : Nat × Nat × Nat × Nat :=
  ((h0 ||| u32 (h1 <<< 26)) &&& 0xffffffff,
   (h1 >>> 6 ||| u32 (h2 <<< 20)) &&& 0xffffffff,
   (h2 >>> 12 ||| u32 (h3 <<< 14)) &&& 0xffffffff,
   (h3 >>> 18 ||| u32 (h4 <<< 8)) &&& 0xffffffff)

/-- Stage "mac = (h + pad) % (2^128)" of Poly1305::process_end_of_stream:
add the pad words with 64-bit carries, keeping 128 bits. -/
def eos_pad (h0 h1 h2 h3 s0 s1 s2 s3 : Nat) : Nat × Nat × Nat × Nat :=
  let f := u64 (h0 + s0)
  let w0 := u32 f
  let f := u64 (h1 + s1 + (f >>> 32))
  let w1 := u32 f
  let f := u64 (h2 + s2 + (f >>> 32))
  let w2 := u32 f
  let f := u64 (h3 + s3 + (f >>> 32))
  let w3 := u32 f
  (w0, w1, w2, w3)

/-- Poly1305::process_end_of_stream: full carry, branch-free subtraction of
the prime, repacking into four 32-bit words, and addition of the pad s. -/
def Poly1305.process_end_of_stream (st : Poly1305) : Poly1305 :=
  let h := eos_carry st.a0 st.a1 st.a2 st.a3 st.a4
  let hs := eos_select h.1 h.2.1 h.2.2.1 h.2.2.2.1 h.2.2.2.2
  let w := eos_repack hs.1 hs.2.1 hs.2.2.1 hs.2.2.2.1 hs.2.2.2.2
  let m := eos_pad w.1 w.2.1 w.2.2.1 w.2.2.2 st.s0 st.s1 st.s2 st.s3
  { st with a0 := m.1, a1 := m.2.1, a2 := m.2.2.1, a3 := m.2.2.2 }

/-- Poly1305::reset: clear the accumulator, leftover count, buffer and the
finalization flag; r and s are untouched. -/
def Poly1305.reset (st : Poly1305) : Poly1305 :=
  { st with a0 := 0, a1 := 0, a2 := 0, a3 := 0, a4 := 0, leftover := 0,
            is_finalized := false,
            buffer := List.replicate POLY1305_BLOCKSIZE 0 }

/-- While-loop tail of Poly1305::update: absorb aligned 16-byte blocks, then
copy the residual bytes into the front of the buffer and record leftover. -/
def Poly1305.updateLoop (st : Poly1305) (bytes : List Nat) :
    Except Err Poly1305 :=
  if h : POLY1305_BLOCKSIZE ≤ bytes.length then
    match st.process_block (bytes.take POLY1305_BLOCKSIZE) with
    | none => .error .unknown
    | some st2 => st2.updateLoop (bytes.drop POLY1305_BLOCKSIZE)
  else
    .ok { st with buffer := writeAt st.buffer 0 bytes,
                  leftover := bytes.length }
termination_by bytes.length
decreasing_by
  simp only [List.length_drop, POLY1305_BLOCKSIZE] at *
  omega

/-- Poly1305::update: fill a pending partial block first, then absorb whole
blocks, buffering any residual bytes. -/
def Poly1305.update (st : Poly1305) (data : List Nat) : Except Err Poly1305 :=
  if st.is_finalized then .error .finalized
  else if st.leftover ≠ 0 then
    let want0 := POLY1305_BLOCKSIZE - st.leftover
    let want := if want0 > data.length then data.length else want0
    let buffer1 := writeAt st.buffer st.leftover (data.take want)
    let bytes := data.drop want
    let leftover1 := st.leftover + want
    if leftover1 < POLY1305_BLOCKSIZE then
      .ok { st with buffer := buffer1, leftover := leftover1 }
    else
      match Poly1305.process_block { st with buffer := buffer1 } buffer1 with
      | none => .error .unknown
      | some st2 => Poly1305.updateLoop { st2 with leftover := 0 } bytes
  else
    st.updateLoop data

/-- Poly1305::finalize: pad and absorb the pending partial block in a local
copy of the buffer with the high bit cleared, run the final reduction, and
serialize the low four accumulator words as the tag. -/
def Poly1305.finalize (st : Poly1305) : Except Err (List Nat × Poly1305) :=
  if st.is_finalized then .error .finalized
  else
    match (if st.leftover ≠ 0 then
            Poly1305.process_block { st with is_finalized := true }
              (writeAt st.buffer st.leftover
                (1 :: List.replicate (POLY1305_BLOCKSIZE - (st.leftover + 1)) 0))
          else some { st with is_finalized := true }) with
    | none => .error .unknown
    | some st2 =>
      match tag_from_slice POLY1305_BLOCKSIZE
          (le32 st2.process_end_of_stream.a0 ++
            le32 st2.process_end_of_stream.a1 ++
            le32 st2.process_end_of_stream.a2 ++
            le32 st2.process_end_of_stream.a3) with
      | none => .error .unknown
      | some t => .ok (t, st2.process_end_of_stream)

/-- Free function init of poly1305.rs: zeroed state, clamped r, stored s. -/
def Poly1305.init (key : List Nat) : Poly1305 :=
  { a0 := 0, a1 := 0, a2 := 0, a3 := 0, a4 := 0,
    r0 := read32 key 0 &&& 0x3ffffff,
    r1 := read32 key 3 >>> 2 &&& 0x3ffff03,
    r2 := read32 key 6 >>> 4 &&& 0x3ffc0ff,
    r3 := read32 key 9 >>> 6 &&& 0x3f03fff,
    r4 := read32 key 12 >>> 8 &&& 0x00fffff,
    s0 := read32 key 16, s1 := read32 key 20,
    s2 := read32 key 24, s3 := read32 key 28,
    leftover := 0, buffer := List.replicate POLY1305_BLOCKSIZE 0,
    is_finalized := false }

/-- One-shot function poly1305 of poly1305.rs; the internal unwraps are
embedded as error propagation. -/
def poly1305 (one_time_key data : List Nat) : Except Err (List Nat) :=
  match (Poly1305.init one_time_key).update data with
  | .error e => .error e
  | .ok st =>
    match st.finalize with
    | .error e => .error e
    | .ok (t, _) => .ok t

/-- Free function verify of poly1305.rs. -/
def Poly1305.verify (expected one_time_key data : List Nat) :
    Except Err Bool :=
  match poly1305 one_time_key data with
  | .error e => .error e
  | .ok t => if t = expected then .ok true else .error .invalidTag

/-- One user-visible operation on a Poly1305 state; failing operations leave
the state unchanged, exactly as a Rust early Err return does. -/
inductive PolyOp
  | upd (data : List Nat)
  | fin
  | rst

/-- Apply one operation to a Poly1305 state, keeping the old state when the
operation fails. -/
def Poly1305.step (st : Poly1305) (op : PolyOp) : Poly1305 :=
  match op with
  | .upd d =>
    match st.update d with
    | .ok s => s
    | .error _ => st
  | .fin =>
    match st.finalize with
    | .ok (_, s) => s
    | .error _ => st
  | .rst => st.reset

/-- Apply a sequence of operations to a Poly1305 state. -/
def Poly1305.run (st : Poly1305) (ops : List PolyOp) : Poly1305 :=
  ops.foldl Poly1305.step st

/-- The streaming SHA-512 collaborator state: the byte stream absorbed so
far.  The compression function is external to the repository. -/
structure Sha512 where
  absorbed : List Nat
deriving DecidableEq

/-- Sha512::default(): an empty hasher. -/
def Sha512.default : Sha512 := ⟨[]⟩

/-- Sha512::input(): absorb bytes. -/
def Sha512.input (s : Sha512) (data : List Nat) : Sha512 :=
  ⟨s.absorbed ++ data⟩

/-- Modelled from the spec: the SHA-512 compression function is an external
collaborator (spec section 6: result() returns 64 bytes).  It is modelled as
an abstract 64-byte fingerprint of the absorbed stream (8-byte length, 8-byte
byte sum, zero padding); the theorems below use only that it is a function of
the absorbed bytes producing 64 bytes. -/
def sha512digest (msg : List Nat) : List Nat :=
  le64 msg.length ++ le64 (msg.foldl (· + ·) 0) ++ List.replicate 48 0

/-- Sha512::result(): the 64-byte digest of the absorbed stream. -/
def Sha512.result (s : Sha512) : List Nat := sha512digest s.absorbed

/-- The HMAC-SHA512 streaming state (struct Hmac in hmac.rs). -/
structure Hmac where
  ipad : List Nat
  opad_hasher : Sha512
  ipad_hasher : Sha512
  is_finalized : Bool
deriving DecidableEq

/-- XOR the bytes of key into the front of buf, the embedding of the indexed
in-place XOR loop of Hmac::pad_key_io. -/
def xorInto (buf key : List Nat) : List Nat :=
  (buf.take key.length).zipWith (fun a b => a ^^^ b) key ++ buf.drop key.length

/-- Hmac::pad_key_io: XOR the padded key into ipad and opad and feed both
into the respective hashers. -/
def Hmac.pad_key_io (st : Hmac) (key : List Nat) : Hmac :=
  let opad := xorInto (List.replicate SHA2_BLOCKSIZE 0x5C) key
  let ipad1 := xorInto st.ipad key
  { st with ipad := ipad1,
            ipad_hasher := st.ipad_hasher.input ipad1,
            opad_hasher := st.opad_hasher.input opad }

/-- Free function init of hmac.rs. -/
def Hmac.init (secret_key : List Nat) : Hmac :=
  Hmac.pad_key_io
    { ipad := List.replicate SHA2_BLOCKSIZE 0x36,
      opad_hasher := Sha512.default,
      ipad_hasher := Sha512.default,
      is_finalized := false } secret_key

/-- Hmac::reset: re-feed the stored ipad into the inner hasher and clear the
finalization flag.  Note the inner hasher is not re-initialised first. -/
def Hmac.reset (st : Hmac) : Hmac :=
  { st with ipad_hasher := st.ipad_hasher.input st.ipad,
            is_finalized := false }

/-- Hmac::update: forward bytes to the inner hasher. -/
def Hmac.update (st : Hmac) (data : List Nat) : Except Err Hmac :=
  if st.is_finalized then .error .finalized
  else .ok { st with ipad_hasher := st.ipad_hasher.input data }

/-- Hmac::finalize: swap the inner hasher out for a fresh one, feed its
digest to a clone of the outer hasher, and emit the outer digest. -/
def Hmac.finalize (st : Hmac) : Except Err (List Nat × Hmac) :=
  if st.is_finalized then .error .finalized
  else
    let hash_ires := st.ipad_hasher
    let st1 := { st with is_finalized := true, ipad_hasher := Sha512.default }
    let o_hash := st1.opad_hasher.input hash_ires.result
    match tag_from_slice HLEN o_hash.result with
    | none => .error .unknown
    | some t => .ok (t, st1)

/-- One-shot function hmac of hmac.rs; the internal unwraps are embedded as
error propagation. -/
def hmac (secret_key data : List Nat) : Except Err (List Nat) :=
  match (Hmac.init secret_key).update data with
  | .error e => .error e
  | .ok st =>
    match st.finalize with
    | .error e => .error e
    | .ok (t, _) => .ok t

/-- Free function verify of hmac.rs. -/
def Hmac.verify (expected secret_key data : List Nat) : Except Err Bool :=
  match (Hmac.init secret_key).update data with
  | .error e => .error e
  | .ok st =>
    match st.finalize with
    | .error e => .error e
    | .ok (t, _) => if expected = t then .ok true else .error .invalidTag

/-- Modelled from the spec: the construct_hmac_key macro is not under src.
Spec section 4.1: from_slice accepts at most 128 bytes, copies them into a
128-byte buffer zero-padded on the right, and rejects longer slices with
InvalidLength. -/
def SecretKey.from_slice (slice : List Nat) : Except Err (List Nat) :=
  if slice.length > SHA2_BLOCKSIZE then .error .invalidLength
  else .ok (slice ++ List.replicate (SHA2_BLOCKSIZE - slice.length) 0)

/-- The accumulator limbs of a state as a tuple. -/
def Poly1305.limbs (st : Poly1305) : Nat × Nat × Nat × Nat × Nat :=
  (st.a0, st.a1, st.a2, st.a3, st.a4)

/-- The clamped multiplier limbs of a state as a tuple. -/
def Poly1305.rVec (st : Poly1305) : Nat × Nat × Nat × Nat × Nat :=
  (st.r0, st.r1, st.r2, st.r3, st.r4)

/-- The pad words of a state as a tuple. -/
def Poly1305.sVec (st : Poly1305) : Nat × Nat × Nat × Nat :=
  (st.s0, st.s1, st.s2, st.s3)

/-- The pending bytes of a partially filled block: the first leftover bytes
of the internal buffer. -/
def Poly1305.pend (st : Poly1305) : List Nat :=
  st.buffer.take st.leftover

/-- The pure effect of one process_block call on the accumulator limbs. -/
def blockStep (fin : Bool) (r : Nat × Nat × Nat × Nat × Nat)
    (a : Nat × Nat × Nat × Nat × Nat) (blk : List Nat) :
    Nat × Nat × Nat × Nat × Nat :=
  let h := poly_add_m fin a.1 a.2.1 a.2.2.1 a.2.2.2.1 a.2.2.2.2 blk
  let d := poly_mul_r r.1 r.2.1 r.2.2.1 r.2.2.2.1 r.2.2.2.2
    h.1 h.2.1 h.2.2.1 h.2.2.2.1 h.2.2.2.2
  poly_carry d.1 d.2.1 d.2.2.1 d.2.2.2.1 d.2.2.2.2

/-- The aligned full 16-byte blocks at the front of a byte stream. -/
def chunks16 (msg : List Nat) : List (List Nat) :=
  if h : POLY1305_BLOCKSIZE ≤ msg.length then
    msg.take POLY1305_BLOCKSIZE :: chunks16 (msg.drop POLY1305_BLOCKSIZE)
  else []
termination_by msg.length
decreasing_by
  simp only [List.length_drop, POLY1305_BLOCKSIZE] at *
  omega

/-- The residual bytes of a stream after all aligned full blocks. -/
def lastChunk (msg : List Nat) : List Nat :=
  msg.drop (POLY1305_BLOCKSIZE * (msg.length / POLY1305_BLOCKSIZE))

/-- The aligned full-block front of a stream. -/
def fullPart (msg : List Nat) : List Nat :=
  msg.take (POLY1305_BLOCKSIZE * (msg.length / POLY1305_BLOCKSIZE))

/-- Feed a list of parts through successive Poly1305 updates, propagating
errors like the Rust question-mark operator. -/
def chainUpdates (st : Poly1305) (parts : List (List Nat)) :
    Except Err Poly1305 :=
  parts.foldl
    (fun acc d =>
      match acc with
      | .ok s => s.update d
      | .error e => .error e) (.ok st)

/-- Feed a list of parts through successive HMAC updates, propagating
errors. -/
def hmacChainUpdates (st : Hmac) (parts : List (List Nat)) :
    Except Err Hmac :=
  parts.foldl
    (fun acc d =>
      match acc with
      | .ok s => s.update d
      | .error e => .error e) (.ok st)

/-- Keep only the tag of a finalize result. -/
def tagOf (e : Except Err (List Nat × Poly1305)) : Except Err (List Nat) :=
  e.map Prod.fst

/-- Keep only the tag of an HMAC finalize result. -/
def hmacTagOf (e : Except Err (List Nat × Hmac)) : Except Err (List Nat) :=
  e.map Prod.fst

/-- Validity invariant of a Poly1305 state: the buffer has block size and
the leftover count is a proper partial-block length. -/
abbrev PolyInv (st : Poly1305) : Prop :=
  st.buffer.length = POLY1305_BLOCKSIZE ∧ st.leftover < POLY1305_BLOCKSIZE

/-- The 130-bit value of a limb tuple in radix 2^26. -/
def limbsVal (a : Nat × Nat × Nat × Nat × Nat) : Nat :=
  a.1 + 2 ^ 26 * a.2.1 + 2 ^ 52 * a.2.2.1 + 2 ^ 78 * a.2.2.2.1 +
    2 ^ 104 * a.2.2.2.2

/-- The 128-bit value of a 32-bit word tuple. -/
def wordsVal (s : Nat × Nat × Nat × Nat) : Nat :=
  s.1 + 2 ^ 32 * s.2.1 + 2 ^ 64 * s.2.2.1 + 2 ^ 96 * s.2.2.2

/-- The little-endian integer value of a byte sequence. -/
def bytesLE (data : List Nat) : Nat :=
  data.foldr (fun b acc => b + 2 ^ 8 * acc) 0

/-- Stage h *= r of process_block without the 64-bit truncations: the
mathematically exact product rows, used to state that no 64-bit
intermediate overflows. -/
def poly_mul_r_exact (r0 r1 r2 r3 r4 h0 h1 h2 h3 h4 : Nat) :
    Nat × Nat × Nat × Nat × Nat :=
  (h0 * r0 + h1 * (r4 * 5) + h2 * (r3 * 5) + h3 * (r2 * 5) + h4 * (r1 * 5),
   h0 * r1 + h1 * r0 + h2 * (r4 * 5) + h3 * (r3 * 5) + h4 * (r2 * 5),
   h0 * r2 + h1 * r1 + h2 * r0 + h3 * (r4 * 5) + h4 * (r3 * 5),
   h0 * r3 + h1 * r2 + h2 * r1 + h3 * r0 + h4 * (r4 * 5),
   h0 * r4 + h1 * r3 + h2 * r2 + h3 * r1 + h4 * r0)

/-- Stage h += m of process_block without the 32-bit truncations. -/
def poly_add_m_exact (fin : Bool) (a0 a1 a2 a3 a4 : Nat) (data : List Nat) :
    Nat × Nat × Nat × Nat × Nat :=
  let hibit : Nat := if fin then 0 else 1 <<< 24
  (a0 + (read32 data 0 &&& 0x3ffffff),
   a1 + (read32 data 3 >>> 2 &&& 0x3ffffff),
   a2 + (read32 data 6 >>> 4 &&& 0x3ffffff),
   a3 + (read32 data 9 >>> 6 &&& 0x3ffffff),
   a4 + (read32 data 12 >>> 8 ||| hibit))

/-- Stage partial h %= p of process_block without the machine truncations. -/
def poly_carry_exact (d0 d1 d2 d3 d4 : Nat) : Nat × Nat × Nat × Nat × Nat :=
  let c0 := d0 / 2 ^ 26
  let h0 := d0 % 2 ^ 26
  let e1 := d1 + c0
  let c1 := e1 / 2 ^ 26
  let h1 := e1 % 2 ^ 26
  let e2 := d2 + c1
  let c2 := e2 / 2 ^ 26
  let h2 := e2 % 2 ^ 26
  let e3 := d3 + c2
  let c3 := e3 / 2 ^ 26
  let h3 := e3 % 2 ^ 26
  let e4 := d4 + c3
  let c4 := e4 / 2 ^ 26
  let h4 := e4 % 2 ^ 26
  let f0 := h0 + c4 * 5
  let c5 := f0 / 2 ^ 26
  let g0 := f0 % 2 ^ 26
  let g1 := h1 + c5
  (g0, g1, h2, h3, h4)

/-- Poly1305::process_block with every machine truncation removed: the same
computation over unbounded naturals, used to express that no 32-bit or
64-bit intermediate overflows in the real routine. -/
def Poly1305.process_block_exact (st : Poly1305) (data : List Nat) :
    Option Poly1305 :=
  if data.length ≠ POLY1305_BLOCKSIZE then none
  else
    let h := poly_add_m_exact st.is_finalized st.a0 st.a1 st.a2 st.a3 st.a4
      data
    let d := poly_mul_r_exact st.r0 st.r1 st.r2 st.r3 st.r4
      h.1 h.2.1 h.2.2.1 h.2.2.2.1 h.2.2.2.2
    let hh := poly_carry_exact d.1 d.2.1 d.2.2.1 d.2.2.2.1 d.2.2.2.2
    some { st with a0 := hh.1, a1 := hh.2.1, a2 := hh.2.2.1,
                   a3 := hh.2.2.2.1, a4 := hh.2.2.2.2 }

/-- Equality of the key-derived fields r and s of two Poly1305 states. -/
abbrev Poly1305.keyFieldsEq (s t : Poly1305) : Prop :=
  s.r0 = t.r0 ∧ s.r1 = t.r1 ∧ s.r2 = t.r2 ∧ s.r3 = t.r3 ∧ s.r4 = t.r4 ∧
  s.s0 = t.s0 ∧ s.s1 = t.s1 ∧ s.s2 = t.s2 ∧ s.s3 = t.s3

theorem Poly1305.keyFieldsEq.trans {a b c : Poly1305} (h1 : a.keyFieldsEq b)
    (h2 : b.keyFieldsEq c) : a.keyFieldsEq c := by
  obtain ⟨x1, x2, x3, x4, x5, x6, x7, x8, x9⟩ := h1
  obtain ⟨y1, y2, y3, y4, y5, y6, y7, y8, y9⟩ := h2
  exact ⟨x1.trans y1, x2.trans y2, x3.trans y3, x4.trans y4, x5.trans y5,
    x6.trans y6, x7.trans y7, x8.trans y8, x9.trans y9⟩

theorem process_block_frame (st : Poly1305) (data : List Nat) (st' : Poly1305)
    (h : st.process_block data = some st') :
    st'.keyFieldsEq st ∧ st'.leftover = st.leftover ∧ st'.buffer = st.buffer ∧
      st'.is_finalized = st.is_finalized := by
  unfold Poly1305.process_block at h
  split at h
  · exact Option.noConfusion h
  · cases h
    exact ⟨⟨rfl, rfl, rfl, rfl, rfl, rfl, rfl, rfl, rfl⟩, rfl, rfl, rfl⟩

theorem updateLoop_frame (st : Poly1305) (bytes : List Nat) (st' : Poly1305)
    (h : st.updateLoop bytes = .ok st') :
    st'.keyFieldsEq st ∧ st'.is_finalized = st.is_finalized := by
  induction st, bytes using Poly1305.updateLoop.induct with
  | case1 st bytes hlen hnone =>
    rw [Poly1305.updateLoop, dif_pos hlen, hnone] at h
    exact Except.noConfusion h
  | case2 st bytes hlen st2 hsome ih =>
    rw [Poly1305.updateLoop, dif_pos hlen, hsome] at h
    obtain ⟨hk, hf⟩ := ih h
    obtain ⟨hk2, _, _, hf2⟩ := process_block_frame _ _ _ hsome
    exact ⟨hk.trans hk2, hf.trans hf2⟩
  | case3 st bytes hlen =>
    rw [Poly1305.updateLoop, dif_neg hlen] at h
    cases h
    exact ⟨⟨rfl, rfl, rfl, rfl, rfl, rfl, rfl, rfl, rfl⟩, rfl⟩

theorem update_frame (st : Poly1305) (data : List Nat) (st' : Poly1305)
    (h : st.update data = .ok st') :
    st'.keyFieldsEq st ∧ st'.is_finalized = st.is_finalized := by
  simp only [Poly1305.update] at h
  split at h
  · exact Except.noConfusion h
  · split at h
    · split at h <;> split at h <;>
        first
          | (cases h
             exact ⟨⟨rfl, rfl, rfl, rfl, rfl, rfl, rfl, rfl, rfl⟩, rfl⟩)
          | (split at h
             · exact Except.noConfusion h
             · next st2 hsome =>
                 obtain ⟨hk, hf⟩ := updateLoop_frame _ _ _ h
                 obtain ⟨hk2, _, _, hf2⟩ := process_block_frame _ _ _ hsome
                 exact ⟨hk.trans hk2, hf.trans hf2⟩)
    · exact updateLoop_frame _ _ _ h

theorem eos_frame (st : Poly1305) :
    (st.process_end_of_stream).keyFieldsEq st ∧
      (st.process_end_of_stream).leftover = st.leftover ∧
      (st.process_end_of_stream).buffer = st.buffer ∧
      (st.process_end_of_stream).is_finalized = st.is_finalized ∧
      (st.process_end_of_stream).a4 = st.a4 :=
  ⟨⟨rfl, rfl, rfl, rfl, rfl, rfl, rfl, rfl, rfl⟩, rfl, rfl, rfl, rfl⟩

theorem finalize_frame (st : Poly1305) (t : List Nat) (st' : Poly1305)
    (h : st.finalize = .ok (t, st')) :
    st'.keyFieldsEq st ∧ st'.leftover = st.leftover ∧
      st'.buffer = st.buffer ∧ st'.is_finalized = true := by
  simp only [Poly1305.finalize] at h
  split at h
  · exact Except.noConfusion h
  · split at h
    · exact Except.noConfusion h
    · next st2 hsome =>
      split at h
      · exact Except.noConfusion h
      · cases h
        obtain ⟨hk3, hl3, hb3, hf3, _⟩ := eos_frame st2
        have hst2 : st2.keyFieldsEq st ∧ st2.leftover = st.leftover ∧
            st2.buffer = st.buffer ∧ st2.is_finalized = true := by
          split at hsome
          · obtain ⟨hk2, hl2, hb2, hf2⟩ := process_block_frame _ _ _ hsome
            exact ⟨hk2, hl2, hb2, hf2⟩
          · cases hsome
            exact ⟨⟨rfl, rfl, rfl, rfl, rfl, rfl, rfl, rfl, rfl⟩, rfl, rfl, rfl⟩
        exact ⟨hk3.trans hst2.1, hl3.trans hst2.2.1, hb3.trans hst2.2.2.1,
          hf3.trans hst2.2.2.2⟩

theorem step_keyFields (st : Poly1305) (op : PolyOp) :
    (st.step op).keyFieldsEq st := by
  cases op with
  | upd d =>
    show (match st.update d with
      | .ok s => s
      | .error _ => st).keyFieldsEq st
    split
    · next s hs => exact (update_frame _ _ _ hs).1
    · exact ⟨rfl, rfl, rfl, rfl, rfl, rfl, rfl, rfl, rfl⟩
  | fin =>
    show (match st.finalize with
      | .ok (_, s) => s
      | .error _ => st).keyFieldsEq st
    split
    · next t s hs => exact (finalize_frame _ _ _ hs).1
    · exact ⟨rfl, rfl, rfl, rfl, rfl, rfl, rfl, rfl, rfl⟩
  | rst => exact ⟨rfl, rfl, rfl, rfl, rfl, rfl, rfl, rfl, rfl⟩

theorem run_keyFields (st : Poly1305) (ops : List PolyOp) :
    (st.run ops).keyFieldsEq st := by
  induction ops generalizing st with
  | nil => exact ⟨rfl, rfl, rfl, rfl, rfl, rfl, rfl, rfl, rfl⟩
  | cons op ops ih =>
    exact (ih (st.step op)).trans (step_keyFields st op)

theorem reset_eq_init_of_keyFields (key : List Nat) (s : Poly1305)
    (hs : s.keyFieldsEq (Poly1305.init key)) :
    s.reset = Poly1305.init key := by
  obtain ⟨e1, e2, e3, e4, e5, e6, e7, e8, e9⟩ := hs
  cases s
  simp_all [Poly1305.reset, Poly1305.init]

/-- C7: Poly1305 reset clears the accumulator, the leftover count, the
leftover buffer and the finalization flag to their init values, preserves r
and s, and after init(K) followed by any sequence of update, finalize and
reset calls it returns exactly the freshly initialized init(K) state. -/
theorem poly1305_reset_restores_init :
    (∀ st : Poly1305, st.reset.a0 = 0 ∧ st.reset.a1 = 0 ∧ st.reset.a2 = 0 ∧
      st.reset.a3 = 0 ∧ st.reset.a4 = 0 ∧ st.reset.leftover = 0 ∧
      st.reset.buffer = List.replicate POLY1305_BLOCKSIZE 0 ∧
      st.reset.is_finalized = false ∧ st.reset.keyFieldsEq st) ∧
    ∀ key ops, ((Poly1305.init key).run ops).reset = Poly1305.init key := by
  constructor
  · intro st
    exact ⟨rfl, rfl, rfl, rfl, rfl, rfl, rfl, rfl,
      rfl, rfl, rfl, rfl, rfl, rfl, rfl, rfl, rfl⟩
  · intro key ops
    exact reset_eq_init_of_keyFields key _ (run_keyFields (Poly1305.init key) ops)

/-- C10: a successful Poly1305 finalize changes only the accumulator and the
finalization flag; the fields r, s, leftover and the buffer, which still
holds the residual input bytes, keep their values. -/
theorem poly1305_finalize_modifies_only_a (st : Poly1305) (t : List Nat)
    (st' : Poly1305) (h : st.finalize = .ok (t, st')) :
    st'.r0 = st.r0 ∧ st'.r1 = st.r1 ∧ st'.r2 = st.r2 ∧ st'.r3 = st.r3 ∧
      st'.r4 = st.r4 ∧ st'.s0 = st.s0 ∧ st'.s1 = st.s1 ∧ st'.s2 = st.s2 ∧
      st'.s3 = st.s3 ∧ st'.leftover = st.leftover ∧ st'.buffer = st.buffer ∧
      st'.is_finalized = true := by
  obtain ⟨⟨k1, k2, k3, k4, k5, k6, k7, k8, k9⟩, hl, hb, hf⟩ :=
    finalize_frame st t st' h
  exact ⟨k1, k2, k3, k4, k5, k6, k7, k8, k9, hl, hb, hf⟩

theorem poly1305_finalize_modifies_only_a_witness :
    ((Poly1305.init (List.replicate 32 0)).finalize =
      Except.ok (List.replicate 16 0,
        { Poly1305.init (List.replicate 32 0) with is_finalized := true })) ∧
    (({ Poly1305.init (List.replicate 32 0) with
        is_finalized := true } : Poly1305).r0 =
          (Poly1305.init (List.replicate 32 0)).r0 ∧
      ({ Poly1305.init (List.replicate 32 0) with
        is_finalized := true } : Poly1305).r1 =
          (Poly1305.init (List.replicate 32 0)).r1 ∧
      ({ Poly1305.init (List.replicate 32 0) with
        is_finalized := true } : Poly1305).r2 =
          (Poly1305.init (List.replicate 32 0)).r2 ∧
      ({ Poly1305.init (List.replicate 32 0) with
        is_finalized := true } : Poly1305).r3 =
          (Poly1305.init (List.replicate 32 0)).r3 ∧
      ({ Poly1305.init (List.replicate 32 0) with
        is_finalized := true } : Poly1305).r4 =
          (Poly1305.init (List.replicate 32 0)).r4 ∧
      ({ Poly1305.init (List.replicate 32 0) with
        is_finalized := true } : Poly1305).s0 =
          (Poly1305.init (List.replicate 32 0)).s0 ∧
      ({ Poly1305.init (List.replicate 32 0) with
        is_finalized := true } : Poly1305).s1 =
          (Poly1305.init (List.replicate 32 0)).s1 ∧
      ({ Poly1305.init (List.replicate 32 0) with
        is_finalized := true } : Poly1305).s2 =
          (Poly1305.init (List.replicate 32 0)).s2 ∧
      ({ Poly1305.init (List.replicate 32 0) with
        is_finalized := true } : Poly1305).s3 =
          (Poly1305.init (List.replicate 32 0)).s3 ∧
      ({ Poly1305.init (List.replicate 32 0) with
        is_finalized := true } : Poly1305).leftover =
          (Poly1305.init (List.replicate 32 0)).leftover ∧
      ({ Poly1305.init (List.replicate 32 0) with
        is_finalized := true } : Poly1305).buffer =
          (Poly1305.init (List.replicate 32 0)).buffer ∧
      ({ Poly1305.init (List.replicate 32 0) with
        is_finalized := true } : Poly1305).is_finalized = true) :=
  ⟨rfl, poly1305_finalize_modifies_only_a _ _ _ rfl⟩

/-- C6: update and finalize on an already-finalized state of either engine
fail with the Finalized error, the failed operation leaves the state
unchanged, and a following reset clears the flag back to Fresh while
preserving the key-derived material. -/
theorem finalized_state_operations (pst : Poly1305) (hst : Hmac)
    (d dh : List Nat) (hp : pst.is_finalized = true)
    (hh : hst.is_finalized = true) :
    pst.update d = .error .finalized ∧ pst.step (.upd d) = pst ∧
      pst.finalize = .error .finalized ∧ pst.step .fin = pst ∧
      pst.reset.is_finalized = false ∧ pst.reset.keyFieldsEq pst ∧
      hst.update dh = .error .finalized ∧ hst.finalize = .error .finalized ∧
      hst.reset.is_finalized = false ∧ hst.reset.ipad = hst.ipad ∧
      hst.reset.opad_hasher = hst.opad_hasher := by
  have hu : pst.update d = .error .finalized := by
    simp [Poly1305.update, hp]
  have hfin : pst.finalize = .error .finalized := by
    simp [Poly1305.finalize, hp]
  refine ⟨hu, ?_, hfin, ?_, rfl, ⟨rfl, rfl, rfl, rfl, rfl, rfl, rfl, rfl, rfl⟩,
    by simp [Hmac.update, hh], by simp [Hmac.finalize, hh], rfl, rfl, rfl⟩
  · show (match pst.update d with
      | .ok s => s
      | .error _ => pst) = pst
    rw [hu]
  · show (match pst.finalize with
      | .ok (_, s) => s
      | .error _ => pst) = pst
    rw [hfin]

theorem finalized_state_operations_witness :
    (({ Poly1305.init (List.replicate 32 0) with
        is_finalized := true } : Poly1305).is_finalized = true) ∧
    (({ Hmac.init (List.replicate 128 0) with
        is_finalized := true } : Hmac).is_finalized = true) ∧
    (({ Poly1305.init (List.replicate 32 0) with
        is_finalized := true } : Poly1305).update [1, 2] =
      .error .finalized) :=
  ⟨rfl, rfl,
    (finalized_state_operations
      { Poly1305.init (List.replicate 32 0) with is_finalized := true }
      { Hmac.init (List.replicate 128 0) with is_finalized := true }
      [1, 2] [3] rfl rfl).1⟩

/-- C8: the HMAC SecretKey constructor accepts every slice of at most 128
bytes, storing it in a 128-byte buffer zero-padded on the right, and fails
with InvalidLength on every longer slice instead of hashing it down. -/
theorem hmac_secret_key_from_slice (slice : List Nat) :
    (slice.length ≤ SHA2_BLOCKSIZE →
      SecretKey.from_slice slice =
        .ok (slice ++ List.replicate (SHA2_BLOCKSIZE - slice.length) 0) ∧
      ∀ stored, SecretKey.from_slice slice = .ok stored →
        stored.length = SHA2_BLOCKSIZE ∧
          stored.take slice.length = slice ∧
          stored.drop slice.length =
            List.replicate (SHA2_BLOCKSIZE - slice.length) 0) ∧
    (SHA2_BLOCKSIZE < slice.length →
      SecretKey.from_slice slice = .error .invalidLength) := by
  constructor
  · intro hle
    have hok : SecretKey.from_slice slice =
        .ok (slice ++ List.replicate (SHA2_BLOCKSIZE - slice.length) 0) := by
      simp [SecretKey.from_slice]
      omega
    refine ⟨hok, fun stored hst => ?_⟩
    rw [hok] at hst
    cases hst
    refine ⟨?_, ?_, ?_⟩
    · simp [List.length_append, List.length_replicate]
      omega
    · exact List.take_left ..
    · exact List.drop_left ..
  · intro hgt
    simp [SecretKey.from_slice]
    omega

theorem writeAt_length (l xs : List Nat) (i : Nat)
    (h : i + xs.length ≤ l.length) :
    (writeAt l i xs).length = l.length := by
  simp only [writeAt, List.length_append, List.length_take, List.length_drop]
  omega

theorem writeAt_nil (l : List Nat) (i : Nat) : writeAt l i [] = l := by
  simp [writeAt]

theorem writeAt_zero (l xs : List Nat) :
    writeAt l 0 xs = xs ++ l.drop xs.length := by
  simp [writeAt]

theorem writeAt_full (l xs : List Nat) (i : Nat)
    (h : i + xs.length = l.length) :
    writeAt l i xs = l.take i ++ xs := by
  rw [writeAt, h, List.drop_length, List.append_nil]

theorem chunks16_nil_of_lt (msg : List Nat)
    (h : msg.length < POLY1305_BLOCKSIZE) : chunks16 msg = [] := by
  rw [chunks16, dif_neg (by omega)]

theorem chunks16_cons (msg : List Nat) (h : POLY1305_BLOCKSIZE ≤ msg.length) :
    chunks16 msg = msg.take POLY1305_BLOCKSIZE ::
      chunks16 (msg.drop POLY1305_BLOCKSIZE) := by
  rw [chunks16, dif_pos h]

theorem chunks16_append : ∀ x y : List Nat,
    x.length % POLY1305_BLOCKSIZE = 0 →
    chunks16 (x ++ y) = chunks16 x ++ chunks16 y := by
  suffices H : ∀ n x y, x.length = n → x.length % POLY1305_BLOCKSIZE = 0 →
      chunks16 (x ++ y) = chunks16 x ++ chunks16 y by
    exact fun x y hx => H x.length x y rfl hx
  intro n
  induction n using Nat.strong_induction_on with
  | _ n ih =>
    intro x y hlen hx
    rcases Nat.eq_zero_or_pos x.length with h0 | hpos
    · rw [List.eq_nil_of_length_eq_zero h0]
      rw [chunks16_nil_of_lt []
        (by simp only [List.length_nil, POLY1305_BLOCKSIZE]; omega)]
      simp
    · have h16 : POLY1305_BLOCKSIZE ≤ x.length := by
        simp only [POLY1305_BLOCKSIZE] at hx ⊢
        omega
      rw [chunks16_cons x h16,
        chunks16_cons (x ++ y) (by simp only [List.length_append]; omega),
        List.take_append_of_le_length h16, List.drop_append_of_le_length h16]
      rw [ih (x.drop POLY1305_BLOCKSIZE).length
        (by simp only [List.length_drop, POLY1305_BLOCKSIZE] at *; omega)
        (x.drop POLY1305_BLOCKSIZE) y rfl
        (by simp only [List.length_drop, POLY1305_BLOCKSIZE] at *; omega)]
      simp

theorem lastChunk_append (x y : List Nat)
    (hx : x.length % POLY1305_BLOCKSIZE = 0) :
    lastChunk (x ++ y) = lastChunk y := by
  simp only [lastChunk, List.length_append]
  have hxl : POLY1305_BLOCKSIZE * ((x.length + y.length) / POLY1305_BLOCKSIZE)
      = x.length + POLY1305_BLOCKSIZE * (y.length / POLY1305_BLOCKSIZE) := by
    simp only [POLY1305_BLOCKSIZE] at *
    omega
  rw [hxl, ← List.drop_drop, List.drop_left]

theorem fullPart_append_lastChunk (m : List Nat) :
    fullPart m ++ lastChunk m = m :=
  List.take_append_drop ..

theorem fullPart_mod (m : List Nat) :
    (fullPart m).length % POLY1305_BLOCKSIZE = 0 := by
  simp only [fullPart, List.length_take]
  simp only [POLY1305_BLOCKSIZE]
  omega

theorem lastChunk_length (m : List Nat) :
    (lastChunk m).length = m.length % POLY1305_BLOCKSIZE := by
  simp only [lastChunk, List.length_drop]
  simp only [POLY1305_BLOCKSIZE]
  omega

theorem lastChunk_of_lt (m : List Nat) (h : m.length < POLY1305_BLOCKSIZE) :
    lastChunk m = m := by
  have : m.length / POLY1305_BLOCKSIZE = 0 := Nat.div_eq_of_lt h
  simp [lastChunk, this]

theorem chunks16_of_full (m : List Nat) :
    chunks16 m = chunks16 (fullPart m) := by
  conv_lhs => rw [← fullPart_append_lastChunk m]
  rw [chunks16_append _ _ (fullPart_mod m),
    chunks16_nil_of_lt (lastChunk m)
      (by rw [lastChunk_length]; simp only [POLY1305_BLOCKSIZE]; omega),
    List.append_nil]

theorem chunks16_reassoc (m d : List Nat) :
    chunks16 (m ++ d) = chunks16 m ++ chunks16 (lastChunk m ++ d) := by
  conv_lhs => rw [← fullPart_append_lastChunk m, List.append_assoc]
  rw [chunks16_append _ _ (fullPart_mod m), ← chunks16_of_full]

theorem lastChunk_reassoc (m d : List Nat) :
    lastChunk (m ++ d) = lastChunk (lastChunk m ++ d) := by
  conv_lhs => rw [← fullPart_append_lastChunk m, List.append_assoc]
  rw [lastChunk_append _ _ (fullPart_mod m)]

theorem process_block_ok (st : Poly1305) (data : List Nat)
    (h : data.length = POLY1305_BLOCKSIZE) :
    ∃ st', st.process_block data = some st' := by
  unfold Poly1305.process_block
  rw [if_neg (by omega)]
  exact ⟨_, rfl⟩

theorem process_block_limbs (st : Poly1305) (data : List Nat) (st' : Poly1305)
    (h : st.process_block data = some st') :
    st'.limbs = blockStep st.is_finalized st.rVec st.limbs data := by
  unfold Poly1305.process_block at h
  split at h
  · exact Option.noConfusion h
  · cases h
    rfl

theorem keyFieldsEq_rVec {s t : Poly1305} (h : s.keyFieldsEq t) :
    s.rVec = t.rVec := by
  obtain ⟨e1, e2, e3, e4, e5, _, _, _, _⟩ := h
  simp [Poly1305.rVec, e1, e2, e3, e4, e5]

theorem keyFieldsEq_sVec {s t : Poly1305} (h : s.keyFieldsEq t) :
    s.sVec = t.sVec := by
  obtain ⟨_, _, _, _, _, e6, e7, e8, e9⟩ := h
  simp [Poly1305.sVec, e6, e7, e8, e9]

theorem updateLoop_nf : ∀ (st : Poly1305) (bytes : List Nat),
    st.buffer.length = POLY1305_BLOCKSIZE →
    ∃ st', st.updateLoop bytes = .ok st' ∧
      st'.limbs = (chunks16 bytes).foldl
        (blockStep st.is_finalized st.rVec) st.limbs ∧
      st'.pend = lastChunk bytes ∧
      st'.leftover = bytes.length % POLY1305_BLOCKSIZE ∧
      st'.buffer.length = POLY1305_BLOCKSIZE ∧
      st'.keyFieldsEq st ∧ st'.is_finalized = st.is_finalized := by
  intro st bytes
  induction st, bytes using Poly1305.updateLoop.induct with
  | case1 st bytes hlen hnone =>
    intro hbuf
    exfalso
    obtain ⟨st2, hsome⟩ := process_block_ok st (bytes.take POLY1305_BLOCKSIZE)
      (by rw [List.length_take]; omega)
    rw [hsome] at hnone
    exact Option.noConfusion hnone
  | case2 st bytes hlen st2 hsome ih =>
    intro hbuf
    obtain ⟨hk2, hl2, hb2, hf2⟩ := process_block_frame _ _ _ hsome
    obtain ⟨st', hloop, hlimbs, hpend, hlo, hbuf', hk', hf'⟩ :=
      ih (by rw [hb2]; exact hbuf)
    refine ⟨st', ?_, ?_, ?_, ?_, hbuf', hk'.trans hk2, hf'.trans hf2⟩
    · rw [Poly1305.updateLoop, dif_pos hlen, hsome]
      exact hloop
    · rw [hlimbs, process_block_limbs _ _ _ hsome,
        chunks16_cons bytes hlen, List.foldl_cons,
        keyFieldsEq_rVec hk2, hf2]
    · rw [hpend]
      conv_rhs => rw [← List.take_append_drop POLY1305_BLOCKSIZE bytes]
      rw [lastChunk_append _ _ (by
        rw [List.length_take]
        have h16 : POLY1305_BLOCKSIZE ≤ bytes.length := hlen
        simp only [POLY1305_BLOCKSIZE] at h16 ⊢
        omega)]
    · rw [hlo, List.length_drop]
      have h16 : POLY1305_BLOCKSIZE ≤ bytes.length := hlen
      simp only [POLY1305_BLOCKSIZE] at h16 ⊢
      omega
  | case3 st bytes hlen =>
    intro hbuf
    have hlt : bytes.length < POLY1305_BLOCKSIZE := by omega
    refine ⟨{ st with buffer := (writeAt st.buffer 0 bytes),
                      leftover := bytes.length }, ?_, ?_, ?_, ?_, ?_,
      ⟨rfl, rfl, rfl, rfl, rfl, rfl, rfl, rfl, rfl⟩, rfl⟩
    · rw [Poly1305.updateLoop, dif_neg hlen]
    · rw [chunks16_nil_of_lt bytes hlt, List.foldl_nil]
      rfl
    · show (writeAt st.buffer 0 bytes).take bytes.length = lastChunk bytes
      rw [writeAt_zero, lastChunk_of_lt bytes hlt]
      exact List.take_left ..
    · show bytes.length = bytes.length % POLY1305_BLOCKSIZE
      simp only [POLY1305_BLOCKSIZE] at hlt ⊢
      omega
    · show (writeAt st.buffer 0 bytes).length = POLY1305_BLOCKSIZE
      rw [writeAt_length]
      · exact hbuf
      · omega

theorem update_eq_loop (st : Poly1305) (data : List Nat)
    (hfin : st.is_finalized = false) (hl0 : st.leftover = 0) :
    st.update data = st.updateLoop data := by
  simp [Poly1305.update, hfin, hl0]

theorem update_eq_buffered (st : Poly1305) (data : List Nat)
    (hfin : st.is_finalized = false) (hl0 : st.leftover ≠ 0)
    (hlo : st.leftover < POLY1305_BLOCKSIZE)
    (hw : POLY1305_BLOCKSIZE - st.leftover > data.length) :
    st.update data = .ok { st with
      buffer := (writeAt st.buffer st.leftover data),
      leftover := st.leftover + data.length } := by
  have hsmall : st.leftover + data.length < POLY1305_BLOCKSIZE := by omega
  simp [Poly1305.update, hfin, hl0, hw, hsmall, List.take_length]

theorem update_eq_fill (st : Poly1305) (data : List Nat)
    (hfin : st.is_finalized = false) (hl0 : st.leftover ≠ 0)
    (hlo : st.leftover < POLY1305_BLOCKSIZE)
    (hw : ¬(POLY1305_BLOCKSIZE - st.leftover > data.length)) :
    st.update data =
      match Poly1305.process_block
          { st with buffer := (writeAt st.buffer st.leftover
              (data.take (POLY1305_BLOCKSIZE - st.leftover))) }
          (writeAt st.buffer st.leftover
            (data.take (POLY1305_BLOCKSIZE - st.leftover))) with
      | none => .error .unknown
      | some st2 => Poly1305.updateLoop { st2 with leftover := 0 }
          (data.drop (POLY1305_BLOCKSIZE - st.leftover)) := by
  have hfull : ¬(st.leftover + (POLY1305_BLOCKSIZE - st.leftover) <
      POLY1305_BLOCKSIZE) := by omega
  simp [Poly1305.update, hfin, hl0, hw, hfull]

theorem update_nf (st : Poly1305) (data : List Nat)
    (hfin : st.is_finalized = false) (hinv : PolyInv st) :
    ∃ st', st.update data = .ok st' ∧
      st'.limbs = (chunks16 (st.pend ++ data)).foldl
        (blockStep false st.rVec) st.limbs ∧
      st'.pend = lastChunk (st.pend ++ data) ∧
      PolyInv st' ∧ st'.keyFieldsEq st ∧ st'.is_finalized = false := by
  obtain ⟨hbuf, hlo⟩ := hinv
  have hpendlen : st.pend.length = st.leftover := by
    simp only [Poly1305.pend, List.length_take]
    omega
  by_cases hl0 : st.leftover = 0
  · have hpend : st.pend = [] := by simp [Poly1305.pend, hl0]
    obtain ⟨st', h1, h2, h3, h4, h5, h6, h7⟩ := updateLoop_nf st data hbuf
    rw [hfin] at h2 h7
    refine ⟨st', ?_, ?_, ?_, ⟨h5, ?_⟩, h6, h7⟩
    · rw [update_eq_loop st data hfin hl0]
      exact h1
    · rw [hpend, List.nil_append]
      exact h2
    · rw [hpend, List.nil_append]
      exact h3
    · simp only [POLY1305_BLOCKSIZE] at *
      omega
  · by_cases hw : POLY1305_BLOCKSIZE - st.leftover > data.length
    · -- data too short to fill the block: everything stays buffered
      have hsmall : st.leftover + data.length < POLY1305_BLOCKSIZE := by omega
      have hplen : (st.pend ++ data).length < POLY1305_BLOCKSIZE := by
        rw [List.length_append, hpendlen]
        omega
      refine ⟨_, update_eq_buffered st data hfin hl0 hlo hw, ?_, ?_, ⟨?_, ?_⟩,
        ⟨rfl, rfl, rfl, rfl, rfl, rfl, rfl, rfl, rfl⟩, hfin⟩
      · rw [chunks16_nil_of_lt _ hplen, List.foldl_nil]
        rfl
      · show (writeAt st.buffer st.leftover data).take
            (st.leftover + data.length) = lastChunk (st.pend ++ data)
        rw [lastChunk_of_lt _ hplen, writeAt]
        have h1 : (st.buffer.take st.leftover ++ data).length =
            st.leftover + data.length := by
          rw [List.length_append, List.length_take]
          omega
        rw [← h1, List.take_left]
        rfl
      · show (writeAt st.buffer st.leftover data).length = POLY1305_BLOCKSIZE
        rw [writeAt_length]
        · exact hbuf
        · omega
      · exact hsmall
    · -- the pending block gets completed and processed
      set want := POLY1305_BLOCKSIZE - st.leftover with hwant
      have htklen : (data.take want).length = want := by
        rw [List.length_take]
        omega
      have hB1len : (writeAt st.buffer st.leftover (data.take want)).length =
          POLY1305_BLOCKSIZE := by
        rw [writeAt_length]
        · exact hbuf
        · omega
      have hB1 : writeAt st.buffer st.leftover (data.take want) =
          st.pend ++ data.take want := by
        rw [writeAt_full]
        · rfl
        · rw [htklen]
          omega
      obtain ⟨st2, hsome⟩ :=
        process_block_ok { st with buffer := (writeAt st.buffer st.leftover
          (data.take want)) } _ hB1len
      obtain ⟨hk2, hl2, hb2, hf2⟩ := process_block_frame _ _ _ hsome
      have hbuf2 : st2.buffer.length = POLY1305_BLOCKSIZE := by
        rw [hb2]
        exact hB1len
      obtain ⟨st', hloop, hlimbs, hpend', hlo', hbuf', hk', hf'⟩ :=
        updateLoop_nf { st2 with leftover := 0 } (data.drop want) hbuf2
      have hsplit : st.pend ++ data =
          (st.pend ++ data.take want) ++ data.drop want := by
        rw [List.append_assoc, List.take_append_drop]
      have hchunklen : (st.pend ++ data.take want).length =
          POLY1305_BLOCKSIZE := by
        rw [List.length_append, hpendlen, htklen]
        omega
      have hchunks : chunks16 (st.pend ++ data.take want) =
          [st.pend ++ data.take want] := by
        rw [chunks16_cons _ (le_of_eq hchunklen.symm),
          chunks16_nil_of_lt _
            (by rw [List.length_drop, hchunklen]; omega),
          List.take_of_length_le (le_of_eq hchunklen)]
      refine ⟨st', ?_, ?_, ?_, ⟨hbuf', ?_⟩, ?_, ?_⟩
      · rw [update_eq_fill st data hfin hl0 hlo hw, hsome]
        exact hloop
      · have h2p := process_block_limbs _ _ _ hsome
        have h2 : st2.limbs = blockStep st.is_finalized st.rVec st.limbs
            (writeAt st.buffer st.leftover (data.take want)) := h2p
        rw [hB1, hfin] at h2
        have hfin2 : st2.is_finalized = false := by
          rw [hf2]
          exact hfin
        have hrv : st2.rVec = st.rVec := keyFieldsEq_rVec hk2
        have hlimbs2 : st'.limbs = (chunks16 (data.drop want)).foldl
            (blockStep st2.is_finalized st2.rVec) st2.limbs := hlimbs
        rw [hlimbs2, hfin2, hrv, h2, hsplit,
          chunks16_append _ _ (by rw [hchunklen, POLY1305_BLOCKSIZE]),
          hchunks]
        simp [List.foldl_append]
      · rw [hpend', hsplit, lastChunk_append _ _ (by rw [hchunklen,
          POLY1305_BLOCKSIZE])]
      · rw [hlo']
        simp only [POLY1305_BLOCKSIZE] at *
        omega
      · exact (hk'.trans ⟨rfl, rfl, rfl, rfl, rfl, rfl, rfl, rfl, rfl⟩).trans
          (hk2.trans ⟨rfl, rfl, rfl, rfl, rfl, rfl, rfl, rfl, rfl⟩)
      · rw [hf']
        show st2.is_finalized = false
        rw [hf2]
        exact hfin

theorem pend_length (st : Poly1305) (hinv : PolyInv st) :
    st.pend.length = st.leftover := by
  obtain ⟨hbuf, hlo⟩ := hinv
  simp only [Poly1305.pend, List.length_take]
  omega

theorem chain_nf (parts : List (List Nat)) : ∀ (st : Poly1305),
    st.is_finalized = false → PolyInv st →
    ∃ st', chainUpdates st parts = .ok st' ∧
      st'.limbs = (chunks16 (st.pend ++ parts.flatten)).foldl
        (blockStep false st.rVec) st.limbs ∧
      st'.pend = lastChunk (st.pend ++ parts.flatten) ∧
      PolyInv st' ∧ st'.keyFieldsEq st ∧ st'.is_finalized = false := by
  induction parts with
  | nil =>
    intro st hfin hinv
    refine ⟨st, rfl, ?_, ?_, hinv, ⟨rfl, rfl, rfl, rfl, rfl, rfl, rfl, rfl,
      rfl⟩, hfin⟩
    · rw [List.flatten_nil, List.append_nil,
        chunks16_nil_of_lt _ (by rw [pend_length st hinv]; exact hinv.2),
        List.foldl_nil]
    · rw [List.flatten_nil, List.append_nil,
        lastChunk_of_lt _ (by rw [pend_length st hinv]; exact hinv.2)]
  | cons d parts ih =>
    intro st hfin hinv
    obtain ⟨st1, hupd, hl1, hp1, hinv1, hk1, hf1⟩ := update_nf st d hfin hinv
    obtain ⟨st', hchain, hl', hp', hinv', hk', hfin'⟩ := ih st1 hf1 hinv1
    have hstep : chainUpdates st (d :: parts) = chainUpdates st1 parts := by
      simp [chainUpdates, hupd]
    have hrv1 : st1.rVec = st.rVec := keyFieldsEq_rVec hk1
    refine ⟨st', by rw [hstep]; exact hchain, ?_, ?_, hinv', hk'.trans hk1,
      hfin'⟩
    · rw [hl', hrv1, hl1, hp1, List.flatten_cons, ← List.append_assoc,
        chunks16_reassoc (st.pend ++ d) parts.flatten, List.foldl_append]
    · rw [hp', hp1, List.flatten_cons, ← List.append_assoc,
        lastChunk_reassoc (st.pend ++ d) parts.flatten]

theorem eos_words_congr (s t : Poly1305) (hl : s.limbs = t.limbs)
    (hs : s.sVec = t.sVec) :
    s.process_end_of_stream.a0 = t.process_end_of_stream.a0 ∧
      s.process_end_of_stream.a1 = t.process_end_of_stream.a1 ∧
      s.process_end_of_stream.a2 = t.process_end_of_stream.a2 ∧
      s.process_end_of_stream.a3 = t.process_end_of_stream.a3 := by
  simp only [Poly1305.limbs, Prod.mk.injEq] at hl
  simp only [Poly1305.sVec, Prod.mk.injEq] at hs
  obtain ⟨e0, e1, e2, e3, e4⟩ := hl
  obtain ⟨f0, f1, f2, f3⟩ := hs
  refine ⟨?_, ?_, ?_, ?_⟩ <;>
    · simp only [Poly1305.process_end_of_stream]
      simp only [e0, e1, e2, e3, e4, f0, f1, f2, f3]

theorem tag_from_slice_of_length (n : Nat) (xs : List Nat)
    (h : xs.length = n) : tag_from_slice n xs = some xs := by
  simp [tag_from_slice, h]

theorem finalize_ok (st : Poly1305) (hfin : st.is_finalized = false)
    (hinv : PolyInv st) :
    ∃ t st', st.finalize = .ok (t, st') ∧ t.length = POLY1305_BLOCKSIZE := by
  obtain ⟨hbuf, hlo⟩ := hinv
  have hne : ¬st.is_finalized = true := by rw [hfin]; exact Bool.false_ne_true
  have htag : ∀ s2 : Poly1305, (le32 s2.process_end_of_stream.a0 ++
      le32 s2.process_end_of_stream.a1 ++ le32 s2.process_end_of_stream.a2 ++
      le32 s2.process_end_of_stream.a3).length = POLY1305_BLOCKSIZE := by
    intro s2
    simp [le32, POLY1305_BLOCKSIZE]
  by_cases hz : st.leftover ≠ 0
  · have hlen : (writeAt st.buffer st.leftover
        (1 :: List.replicate (POLY1305_BLOCKSIZE - (st.leftover + 1))
          0)).length = POLY1305_BLOCKSIZE := by
      rw [writeAt_length]
      · exact hbuf
      · simp only [List.length_cons, List.length_replicate]
        omega
    obtain ⟨st2, hsome⟩ := process_block_ok
      { st with is_finalized := true } _ hlen
    simp only [Poly1305.finalize, if_neg hne, if_pos hz, hsome,
      tag_from_slice_of_length _ _ (htag st2)]
    exact ⟨_, _, rfl, htag st2⟩
  · simp only [Poly1305.finalize, if_neg hne, if_neg hz,
      tag_from_slice_of_length _ _ (htag { st with is_finalized := true })]
    exact ⟨_, _, rfl, htag { st with is_finalized := true }⟩

theorem finalize_tag_congr (s t : Poly1305)
    (hfs : s.is_finalized = false) (hft : t.is_finalized = false)
    (his : PolyInv s) (hit : PolyInv t)
    (hl : s.limbs = t.limbs) (hp : s.pend = t.pend)
    (hr : s.rVec = t.rVec) (hsv : s.sVec = t.sVec) :
    tagOf s.finalize = tagOf t.finalize := by
  have hlo : s.leftover = t.leftover := by
    rw [← pend_length s his, ← pend_length t hit, hp]
  have hnes : ¬s.is_finalized = true := by rw [hfs]; exact Bool.false_ne_true
  have hnet : ¬t.is_finalized = true := by rw [hft]; exact Bool.false_ne_true
  have htag : ∀ s2 : Poly1305, (le32 s2.process_end_of_stream.a0 ++
      le32 s2.process_end_of_stream.a1 ++ le32 s2.process_end_of_stream.a2 ++
      le32 s2.process_end_of_stream.a3).length = POLY1305_BLOCKSIZE := by
    intro s2
    simp [le32, POLY1305_BLOCKSIZE]
  by_cases hz : s.leftover ≠ 0
  · have hzt : t.leftover ≠ 0 := by rw [← hlo]; exact hz
    have hxs : (1 :: List.replicate (POLY1305_BLOCKSIZE - (s.leftover + 1))
        0).length = POLY1305_BLOCKSIZE - s.leftover := by
      simp only [List.length_cons, List.length_replicate]
      omega
    have hlocs : writeAt s.buffer s.leftover
        (1 :: List.replicate (POLY1305_BLOCKSIZE - (s.leftover + 1)) 0) =
        s.pend ++ (1 :: List.replicate (POLY1305_BLOCKSIZE -
          (s.leftover + 1)) 0) := by
      rw [writeAt_full]
      · rfl
      · rw [hxs, his.1]
        omega
    have hloct : writeAt t.buffer t.leftover
        (1 :: List.replicate (POLY1305_BLOCKSIZE - (t.leftover + 1)) 0) =
        t.pend ++ (1 :: List.replicate (POLY1305_BLOCKSIZE -
          (t.leftover + 1)) 0) := by
      rw [writeAt_full]
      · rfl
      · simp only [List.length_cons, List.length_replicate, hit.1]
        have := hit.2
        omega
    have hleq : writeAt s.buffer s.leftover
        (1 :: List.replicate (POLY1305_BLOCKSIZE - (s.leftover + 1)) 0) =
        writeAt t.buffer t.leftover
          (1 :: List.replicate (POLY1305_BLOCKSIZE - (t.leftover + 1)) 0) := by
      rw [hlocs, hloct, hp, hlo]
    have hlens : (writeAt s.buffer s.leftover
        (1 :: List.replicate (POLY1305_BLOCKSIZE - (s.leftover + 1))
          0)).length = POLY1305_BLOCKSIZE := by
      rw [writeAt_length]
      · exact his.1
      · rw [hxs]
        have := his.2
        omega
    have hlent : (writeAt t.buffer t.leftover
        (1 :: List.replicate (POLY1305_BLOCKSIZE - (t.leftover + 1))
          0)).length = POLY1305_BLOCKSIZE := by
      rw [← hleq]
      exact hlens
    obtain ⟨s2, hsome_s⟩ := process_block_ok
      { s with is_finalized := true } _ hlens
    obtain ⟨t2, hsome_t⟩ := process_block_ok
      { t with is_finalized := true } _ hlent
    have hfin_s : ({ s with is_finalized := true } : Poly1305).is_finalized =
        true := rfl
    have hrv_s : ({ s with is_finalized := true } : Poly1305).rVec =
        s.rVec := rfl
    have hlm_s : ({ s with is_finalized := true } : Poly1305).limbs =
        s.limbs := rfl
    have hfin_t : ({ t with is_finalized := true } : Poly1305).is_finalized =
        true := rfl
    have hrv_t : ({ t with is_finalized := true } : Poly1305).rVec =
        t.rVec := rfl
    have hlm_t : ({ t with is_finalized := true } : Poly1305).limbs =
        t.limbs := rfl
    have hs2 := process_block_limbs _ _ _ hsome_s
    have ht2 := process_block_limbs _ _ _ hsome_t
    rw [hfin_s, hrv_s, hlm_s] at hs2
    rw [hfin_t, hrv_t, hlm_t] at ht2
    have hlimbs2 : s2.limbs = t2.limbs := by
      rw [hs2, ht2, hleq, hl, hr]
    have hsv2 : s2.sVec = t2.sVec := by
      have h1 : s2.sVec = s.sVec :=
        keyFieldsEq_sVec (process_block_frame _ _ _ hsome_s).1
      have h2 : t2.sVec = t.sVec :=
        keyFieldsEq_sVec (process_block_frame _ _ _ hsome_t).1
      rw [h1, h2, hsv]
    obtain ⟨w0, w1, w2, w3⟩ := eos_words_congr s2 t2 hlimbs2 hsv2
    simp only [Poly1305.finalize, if_neg hnes, if_pos hz, hsome_s,
      if_neg hnet, if_pos hzt, hsome_t,
      tag_from_slice_of_length _ _ (htag s2),
      tag_from_slice_of_length _ _ (htag t2)]
    simp only [tagOf, Except.map, w0, w1, w2, w3]
  · have hzt : ¬t.leftover ≠ 0 := by rw [← hlo]; exact hz
    have hlimbs2 : ({ s with is_finalized := true } : Poly1305).limbs =
        ({ t with is_finalized := true } : Poly1305).limbs := hl
    have hsv2 : ({ s with is_finalized := true } : Poly1305).sVec =
        ({ t with is_finalized := true } : Poly1305).sVec := hsv
    obtain ⟨w0, w1, w2, w3⟩ := eos_words_congr _ _ hlimbs2 hsv2
    simp only [Poly1305.finalize, if_neg hnes, if_neg hz,
      if_neg hnet, if_neg hzt,
      tag_from_slice_of_length _ _ (htag { s with is_finalized := true }),
      tag_from_slice_of_length _ _ (htag { t with is_finalized := true })]
    simp only [tagOf, Except.map, w0, w1, w2, w3]

theorem sha512digest_length (msg : List Nat) :
    (sha512digest msg).length = HLEN := by
  simp [sha512digest, le64, le32, HLEN]

theorem hmac_update_ok (st : Hmac) (d : List Nat)
    (hfin : st.is_finalized = false) :
    st.update d = .ok { st with ipad_hasher := st.ipad_hasher.input d } := by
  simp [Hmac.update, hfin]

theorem hmac_finalize_ok (st : Hmac) (hfin : st.is_finalized = false) :
    st.finalize = .ok ((st.opad_hasher.input st.ipad_hasher.result).result,
      { st with is_finalized := true, ipad_hasher := Sha512.default }) := by
  have hlen : ((st.opad_hasher.input st.ipad_hasher.result).result).length =
      HLEN := sha512digest_length _
  simp [Hmac.finalize, hfin, tag_from_slice_of_length _ _ hlen]

theorem hmac_chain_nf (parts : List (List Nat)) : ∀ st : Hmac,
    st.is_finalized = false →
    hmacChainUpdates st parts = .ok { st with
      ipad_hasher := st.ipad_hasher.input parts.flatten } := by
  induction parts with
  | nil =>
    intro st hfin
    show Except.ok st = _
    simp [Sha512.input]
  | cons d parts ih =>
    intro st hfin
    have hstep : hmacChainUpdates st (d :: parts) =
        hmacChainUpdates { st with ipad_hasher := st.ipad_hasher.input d }
          parts := by
      simp [hmacChainUpdates, hmac_update_ok st d hfin]
    rw [hstep,
      ih { st with ipad_hasher := st.ipad_hasher.input d } hfin]
    simp [Sha512.input, List.append_assoc]

theorem poly_init_fin (key : List Nat) :
    (Poly1305.init key).is_finalized = false := rfl

theorem poly_init_inv (key : List Nat) : PolyInv (Poly1305.init key) := by
  constructor
  · simp [Poly1305.init]
  · simp [Poly1305.init, POLY1305_BLOCKSIZE]

theorem poly1305_ok (key data : List Nat) :
    ∃ t, poly1305 key data = .ok t ∧ t.length = POLY1305_BLOCKSIZE := by
  obtain ⟨st1, hupd, _, _, hinv1, _, hf1⟩ :=
    update_nf (Poly1305.init key) data (poly_init_fin key) (poly_init_inv key)
  obtain ⟨t, st2, hfin2, hlen⟩ := finalize_ok st1 hf1 hinv1
  exact ⟨t, by simp [poly1305, hupd, hfin2], hlen⟩

theorem hmac_one_shot_ok (key data : List Nat) :
    ∃ t, hmac key data = .ok t ∧ t.length = HLEN := by
  refine ⟨(((Hmac.init key).opad_hasher.input
      (((Hmac.init key).ipad_hasher.input data).result)).result), ?_, ?_⟩
  · simp only [hmac, hmac_update_ok (Hmac.init key) data rfl,
      hmac_finalize_ok { Hmac.init key with
        ipad_hasher := ((Hmac.init key).ipad_hasher.input data) } rfl]
  · exact sha512digest_length _

theorem hmac_secret_key_from_slice_witness :
    ([7, 7].length ≤ SHA2_BLOCKSIZE ∧
      SecretKey.from_slice [7, 7] =
        .ok ([7, 7] ++ List.replicate (SHA2_BLOCKSIZE - 2) 0)) ∧
    (SHA2_BLOCKSIZE < (List.replicate 129 1).length ∧
      SecretKey.from_slice (List.replicate 129 1) = .error .invalidLength) :=
  ⟨⟨by decide, ((hmac_secret_key_from_slice [7, 7]).1 (by decide)).1⟩,
    ⟨by decide, (hmac_secret_key_from_slice (List.replicate 129 1)).2
      (by decide)⟩⟩

/-- C3: for both engines, feeding any partition of a message through
successive updates followed by finalize yields the same tag as one update of
the whole message followed by finalize, and the same tag as the one-shot
entrypoint on the key and message. -/
theorem streaming_equals_one_shot (pkey hkey : List Nat)
    (parts : List (List Nat)) :
    (match chainUpdates (Poly1305.init pkey) parts with
     | .ok st => tagOf st.finalize
     | .error e => .error e) =
      (match (Poly1305.init pkey).update parts.flatten with
       | .ok st => tagOf st.finalize
       | .error e => .error e) ∧
    (match chainUpdates (Poly1305.init pkey) parts with
     | .ok st => tagOf st.finalize
     | .error e => .error e) = poly1305 pkey parts.flatten ∧
    (match hmacChainUpdates (Hmac.init hkey) parts with
     | .ok st => hmacTagOf st.finalize
     | .error e => .error e) = hmac hkey parts.flatten := by
  obtain ⟨stc, hchain, hlc, hpc, hinvc, hkc, hfc⟩ :=
    chain_nf parts (Poly1305.init pkey) (poly_init_fin pkey)
      (poly_init_inv pkey)
  obtain ⟨stj, hupd, hlj, hpj, hinvj, hkj, hfj⟩ :=
    update_nf (Poly1305.init pkey) parts.flatten (poly_init_fin pkey)
      (poly_init_inv pkey)
  have htageq : tagOf stc.finalize = tagOf stj.finalize :=
    finalize_tag_congr stc stj hfc hfj hinvc hinvj
      (by rw [hlc, hlj]) (by rw [hpc, hpj])
      (by rw [keyFieldsEq_rVec hkc, keyFieldsEq_rVec hkj])
      (by rw [keyFieldsEq_sVec hkc, keyFieldsEq_sVec hkj])
  refine ⟨?_, ?_, ?_⟩
  · rw [hchain, hupd]
    exact htageq
  · rw [hchain]
    obtain ⟨t, st2, hf2, _⟩ := finalize_ok stj hfj hinvj
    show tagOf stc.finalize = poly1305 pkey parts.flatten
    rw [htageq]
    simp [poly1305, hupd, hf2, tagOf, Except.map]
  · rw [hmac_chain_nf parts (Hmac.init hkey) rfl]
    show hmacTagOf (Hmac.finalize _) = hmac hkey parts.flatten
    rw [hmac_finalize_ok { Hmac.init hkey with
      ipad_hasher := ((Hmac.init hkey).ipad_hasher.input parts.flatten) } rfl]
    simp only [hmac, hmac_update_ok (Hmac.init hkey) parts.flatten rfl,
      hmac_finalize_ok { Hmac.init hkey with
        ipad_hasher := ((Hmac.init hkey).ipad_hasher.input parts.flatten) }
        rfl]
    rfl

/-- C5: verify of either engine returns Ok true exactly when the recomputed
tag of the key and data equals the expected tag, and otherwise fails with
the InvalidTag error; it never returns Ok false. -/
theorem verify_ok_iff_tag_matches
    (expected one_time_key data hexpected hkey hdata : List Nat) :
    (∃ t, poly1305 one_time_key data = .ok t ∧
      Poly1305.verify expected one_time_key data =
        (if t = expected then .ok true else .error .invalidTag)) ∧
    (∀ b, Poly1305.verify expected one_time_key data = .ok b → b = true) ∧
    (∃ t, hmac hkey hdata = .ok t ∧
      Hmac.verify hexpected hkey hdata =
        (if hexpected = t then .ok true else .error .invalidTag)) ∧
    (∀ b, Hmac.verify hexpected hkey hdata = .ok b → b = true) := by
  obtain ⟨t, ht, _⟩ := poly1305_ok one_time_key data
  obtain ⟨th, hth, _⟩ := hmac_one_shot_ok hkey hdata
  have hpv : Poly1305.verify expected one_time_key data =
      (if t = expected then .ok true else .error .invalidTag) := by
    simp [Poly1305.verify, ht]
  have hupd := hmac_update_ok (Hmac.init hkey) hdata rfl
  have hfin := hmac_finalize_ok { Hmac.init hkey with
    ipad_hasher := ((Hmac.init hkey).ipad_hasher.input hdata) } rfl
  have hth' : hmac hkey hdata = .ok
      (((Hmac.init hkey).opad_hasher.input
        (((Hmac.init hkey).ipad_hasher.input hdata).result)).result) := by
    simp only [hmac, hupd, hfin]
  have hhv : Hmac.verify hexpected hkey hdata =
      (if hexpected = th then .ok true else .error .invalidTag) := by
    have hteq : th = (((Hmac.init hkey).opad_hasher.input
        (((Hmac.init hkey).ipad_hasher.input hdata).result)).result) := by
      rw [hth] at hth'
      exact (Except.ok.inj hth')
    simp only [Hmac.verify, hupd, hfin, hteq]
  refine ⟨⟨t, ht, hpv⟩, ?_, ⟨th, hth, hhv⟩, ?_⟩
  · intro b hb
    rw [hpv] at hb
    split at hb
    · exact (Except.ok.inj hb).symm
    · exact Except.noConfusion hb
  · intro b hb
    rw [hhv] at hb
    split at hb
    · exact (Except.ok.inj hb).symm
    · exact Except.noConfusion hb

theorem update_nil_loop (st : Poly1305) (hfin : st.is_finalized = false)
    (hl0 : st.leftover = 0) : st.update [] = .ok st := by
  rw [update_eq_loop st [] hfin hl0, Poly1305.updateLoop,
    dif_neg (by simp [POLY1305_BLOCKSIZE]), writeAt_nil]
  rw [List.length_nil, ← hl0]

theorem verify_ok_iff_tag_matches_witness :
    (Poly1305.verify (List.replicate 16 0) (List.replicate 32 0) [] =
      .ok true) ∧ (true = true) := by
  have h0 : (Poly1305.init (List.replicate 32 0)).update [] =
      .ok (Poly1305.init (List.replicate 32 0)) :=
    update_nil_loop _ rfl rfl
  have hv : Poly1305.verify (List.replicate 16 0) (List.replicate 32 0) [] =
      .ok true := by
    simp only [Poly1305.verify, poly1305, h0]
    rfl
  exact ⟨hv,
    (verify_ok_iff_tag_matches (List.replicate 16 0) (List.replicate 32 0)
      [] [] [] []).2.1 true hv⟩

/-- C9: the one-shot entrypoints and the streaming operations never hit
their internal unwraps: every internal process_block call receives exactly
16 bytes, the computed tag always has the Tag length, poly1305 always
returns Ok, and update and finalize succeed on every valid non-finalized
state. -/
theorem internal_unwraps_unreachable :
    (∀ key data, ∃ t, poly1305 key data = .ok t ∧
      t.length = POLY1305_BLOCKSIZE) ∧
    (∀ key data, ∃ t, hmac key data = .ok t ∧ t.length = HLEN) ∧
    (∀ (st : Poly1305) data, st.is_finalized = false → PolyInv st →
      ∃ st', st.update data = .ok st' ∧ PolyInv st') ∧
    (∀ st : Poly1305, st.is_finalized = false → PolyInv st →
      ∃ t st', st.finalize = .ok (t, st') ∧
        t.length = POLY1305_BLOCKSIZE) := by
  refine ⟨poly1305_ok, hmac_one_shot_ok, ?_, finalize_ok⟩
  intro st data hfin hinv
  obtain ⟨st', h1, _, _, hinv', _, _⟩ := update_nf st data hfin hinv
  exact ⟨st', h1, hinv'⟩

theorem internal_unwraps_unreachable_witness :
    (({ Poly1305.init (List.replicate 32 0) with
        leftover := 3 } : Poly1305).is_finalized = false ∧
      PolyInv ({ Poly1305.init (List.replicate 32 0) with
        leftover := 3 } : Poly1305)) ∧
    (∃ st', ({ Poly1305.init (List.replicate 32 0) with
        leftover := 3 } : Poly1305).update [1, 2, 3] = .ok st' ∧
      PolyInv st') :=
  ⟨⟨rfl, by decide⟩,
    internal_unwraps_unreachable.2.2.1
      { Poly1305.init (List.replicate 32 0) with leftover := 3 }
      [1, 2, 3] rfl (by decide)⟩

theorem and_mask26 (x : Nat) : x &&& 0x3ffffff = x % 2 ^ 26 := by
  have h := Nat.and_pow_two_sub_one_eq_mod x 26
  norm_num at h ⊢
  exact h

theorem and_mask32 (x : Nat) : x &&& 0xffffffff = x % 2 ^ 32 := by
  have h := Nat.and_pow_two_sub_one_eq_mod x 32
  norm_num at h ⊢
  exact h

theorem u32_id (x : Nat) (h : x < 2 ^ 32) : u32 x = x := Nat.mod_eq_of_lt h

theorem u64_id (x : Nat) (h : x < 2 ^ 64) : u64 x = x := Nat.mod_eq_of_lt h

theorem lor_eq_add (k a b : Nat) (ha : a < 2 ^ k) (hb : b % 2 ^ k = 0) :
    a ||| b = a + b := by
  induction k generalizing a b with
  | zero =>
    have ha0 : a = 0 := by omega
    have hb0 : b % 1 = 0 := hb
    subst ha0
    simp
  | succ k ih =>
    obtain ⟨m, hm⟩ : 2 ^ (k + 1) ∣ b := Nat.dvd_of_mod_eq_zero hb
    have hbform : b = 2 * (2 ^ k * m) := by
      rw [hm, pow_succ]
      ring
    have hb2 : b % 2 = 0 := by omega
    have hbd : b / 2 % 2 ^ k = 0 := by
      have h1 : b / 2 = 2 ^ k * m := by omega
      rw [h1]
      exact Nat.mul_mod_right _ _
    have had : a / 2 < 2 ^ k := by
      have hpow : a < 2 ^ k * 2 := by
        rw [← pow_succ]
        exact ha
      omega
    have hih := ih (a / 2) (b / 2) had hbd
    have hdiv : (a ||| b) / 2 = a / 2 ||| b / 2 := Nat.or_div_two
    have hmod : (a ||| b) % 2 = a % 2 := by
      rcases Nat.mod_two_eq_zero_or_one a with h | h
      · have hno : ¬(a ||| b) % 2 = 1 := by
          intro hc
          rcases Nat.or_mod_two_eq_one.mp hc with h' | h' <;> omega
        omega
      · have hyes : (a ||| b) % 2 = 1 := Nat.or_mod_two_eq_one.mpr (Or.inl h)
        omega
    have e1 : a ||| b = 2 * ((a ||| b) / 2) + (a ||| b) % 2 := by omega
    rw [hdiv, hmod, hih] at e1
    omega

theorem carry_agrees (d0 d1 d2 d3 d4 : Nat)
    (hb0 : d0 < 2 ^ 58 - 2 ^ 32) (hb1 : d1 < 2 ^ 58 - 2 ^ 32)
    (hb2 : d2 < 2 ^ 58 - 2 ^ 32) (hb3 : d3 < 2 ^ 58 - 2 ^ 32)
    (hb4 : d4 < 2 ^ 55 + 2 ^ 54) :
    poly_carry d0 d1 d2 d3 d4 = poly_carry_exact d0 d1 d2 d3 d4 := by
  simp only [poly_carry, poly_carry_exact, Nat.shiftRight_eq_div_pow,
    and_mask26]
  rw [u32_id (d0 / 2 ^ 26) (by omega)]
  rw [u64_id (d1 + d0 / 2 ^ 26) (by omega)]
  rw [u32_id ((d1 + d0 / 2 ^ 26) / 2 ^ 26) (by omega)]
  rw [u64_id (d2 + (d1 + d0 / 2 ^ 26) / 2 ^ 26) (by omega)]
  rw [u32_id ((d2 + (d1 + d0 / 2 ^ 26) / 2 ^ 26) / 2 ^ 26) (by omega)]
  rw [u64_id (d3 + (d2 + (d1 + d0 / 2 ^ 26) / 2 ^ 26) / 2 ^ 26) (by omega)]
  rw [u32_id ((d3 + (d2 + (d1 + d0 / 2 ^ 26) / 2 ^ 26) / 2 ^ 26) / 2 ^ 26)
    (by omega)]
  rw [u64_id (d4 + (d3 + (d2 + (d1 + d0 / 2 ^ 26) / 2 ^ 26) / 2 ^ 26) /
    2 ^ 26) (by omega)]
  rw [u32_id ((d4 + (d3 + (d2 + (d1 + d0 / 2 ^ 26) / 2 ^ 26) / 2 ^ 26) /
    2 ^ 26) / 2 ^ 26) (by omega)]
  rw [u32_id (d0 % 2 ^ 26 +
    (d4 + (d3 + (d2 + (d1 + d0 / 2 ^ 26) / 2 ^ 26) / 2 ^ 26) / 2 ^ 26) /
      2 ^ 26 * 5) (by omega)]
  rw [u32_id ((d1 + d0 / 2 ^ 26) % 2 ^ 26 +
    (d0 % 2 ^ 26 +
      (d4 + (d3 + (d2 + (d1 + d0 / 2 ^ 26) / 2 ^ 26) / 2 ^ 26) / 2 ^ 26) /
        2 ^ 26 * 5) / 2 ^ 26) (by omega)]

theorem carry_exact_spec (d0 d1 d2 d3 d4 : Nat)
    (hb0 : d0 < 2 ^ 58 - 2 ^ 32) (hb1 : d1 < 2 ^ 58 - 2 ^ 32)
    (hb2 : d2 < 2 ^ 58 - 2 ^ 32) (hb3 : d3 < 2 ^ 58 - 2 ^ 32)
    (hb4 : d4 < 2 ^ 55 + 2 ^ 54) :
    ∃ k g0 g1 g2 g3 g4,
      poly_carry_exact d0 d1 d2 d3 d4 = (g0, g1, g2, g3, g4) ∧
      d0 + 2 ^ 26 * d1 + 2 ^ 52 * d2 + 2 ^ 78 * d3 + 2 ^ 104 * d4 + 5 * k =
        g0 + 2 ^ 26 * g1 + 2 ^ 52 * g2 + 2 ^ 78 * g3 + 2 ^ 104 * g4 +
          2 ^ 130 * k ∧
      g0 < 2 ^ 26 ∧ g1 < 2 ^ 26 + 2 ^ 6 ∧ g2 < 2 ^ 26 ∧ g3 < 2 ^ 26 ∧
      g4 < 2 ^ 26 := by
  simp only [poly_carry_exact]
  refine ⟨(d4 + (d3 + (d2 + (d1 + d0 / 2 ^ 26) / 2 ^ 26) / 2 ^ 26) / 2 ^ 26)
    / 2 ^ 26, _, _, _, _, _, rfl, ?_, ?_, ?_, ?_, ?_, ?_⟩ <;> omega

theorem mul_agrees (r0 r1 r2 r3 r4 h0 h1 h2 h3 h4 : Nat)
    (hr0 : r0 ≤ 0x3ffffff) (hr1 : r1 ≤ 0x3ffff03) (hr2 : r2 ≤ 0x3ffc0ff)
    (hr3 : r3 ≤ 0x3f03fff) (hr4 : r4 ≤ 0x00fffff)
    (hh0 : h0 < 2 ^ 27) (hh1 : h1 < 2 ^ 28) (hh2 : h2 < 2 ^ 27)
    (hh3 : h3 < 2 ^ 27) (hh4 : h4 < 2 ^ 27) :
    poly_mul_r r0 r1 r2 r3 r4 h0 h1 h2 h3 h4 =
      poly_mul_r_exact r0 r1 r2 r3 r4 h0 h1 h2 h3 h4 ∧
    (poly_mul_r_exact r0 r1 r2 r3 r4 h0 h1 h2 h3 h4).1 < 2 ^ 58 - 2 ^ 32 ∧
    (poly_mul_r_exact r0 r1 r2 r3 r4 h0 h1 h2 h3 h4).2.1 <
      2 ^ 58 - 2 ^ 32 ∧
    (poly_mul_r_exact r0 r1 r2 r3 r4 h0 h1 h2 h3 h4).2.2.1 <
      2 ^ 58 - 2 ^ 32 ∧
    (poly_mul_r_exact r0 r1 r2 r3 r4 h0 h1 h2 h3 h4).2.2.2.1 <
      2 ^ 58 - 2 ^ 32 ∧
    (poly_mul_r_exact r0 r1 r2 r3 r4 h0 h1 h2 h3 h4).2.2.2.2 <
      2 ^ 55 + 2 ^ 54 := by
  have b1 : h0 * r0 ≤ (2 ^ 27 - 1) * 0x3ffffff :=
    Nat.mul_le_mul (by omega) hr0
  have b2 : h0 * r1 ≤ (2 ^ 27 - 1) * 0x3ffff03 :=
    Nat.mul_le_mul (by omega) hr1
  have b3 : h0 * r2 ≤ (2 ^ 27 - 1) * 0x3ffc0ff :=
    Nat.mul_le_mul (by omega) hr2
  have b4 : h0 * r3 ≤ (2 ^ 27 - 1) * 0x3f03fff :=
    Nat.mul_le_mul (by omega) hr3
  have b5 : h0 * r4 ≤ (2 ^ 27 - 1) * 0x00fffff :=
    Nat.mul_le_mul (by omega) hr4
  have b6 : h1 * r0 ≤ (2 ^ 28 - 1) * 0x3ffffff :=
    Nat.mul_le_mul (by omega) hr0
  have b7 : h1 * r1 ≤ (2 ^ 28 - 1) * 0x3ffff03 :=
    Nat.mul_le_mul (by omega) hr1
  have b8 : h1 * r2 ≤ (2 ^ 28 - 1) * 0x3ffc0ff :=
    Nat.mul_le_mul (by omega) hr2
  have b9 : h1 * r3 ≤ (2 ^ 28 - 1) * 0x3f03fff :=
    Nat.mul_le_mul (by omega) hr3
  have b10 : h1 * r4 ≤ (2 ^ 28 - 1) * 0x00fffff :=
    Nat.mul_le_mul (by omega) hr4
  have b11 : h2 * r0 ≤ (2 ^ 27 - 1) * 0x3ffffff :=
    Nat.mul_le_mul (by omega) hr0
  have b12 : h2 * r1 ≤ (2 ^ 27 - 1) * 0x3ffff03 :=
    Nat.mul_le_mul (by omega) hr1
  have b13 : h2 * r2 ≤ (2 ^ 27 - 1) * 0x3ffc0ff :=
    Nat.mul_le_mul (by omega) hr2
  have b14 : h2 * r3 ≤ (2 ^ 27 - 1) * 0x3f03fff :=
    Nat.mul_le_mul (by omega) hr3
  have b15 : h2 * r4 ≤ (2 ^ 27 - 1) * 0x00fffff :=
    Nat.mul_le_mul (by omega) hr4
  have b16 : h3 * r0 ≤ (2 ^ 27 - 1) * 0x3ffffff :=
    Nat.mul_le_mul (by omega) hr0
  have b17 : h3 * r1 ≤ (2 ^ 27 - 1) * 0x3ffff03 :=
    Nat.mul_le_mul (by omega) hr1
  have b18 : h3 * r2 ≤ (2 ^ 27 - 1) * 0x3ffc0ff :=
    Nat.mul_le_mul (by omega) hr2
  have b19 : h3 * r3 ≤ (2 ^ 27 - 1) * 0x3f03fff :=
    Nat.mul_le_mul (by omega) hr3
  have b20 : h3 * r4 ≤ (2 ^ 27 - 1) * 0x00fffff :=
    Nat.mul_le_mul (by omega) hr4
  have b21 : h4 * r0 ≤ (2 ^ 27 - 1) * 0x3ffffff :=
    Nat.mul_le_mul (by omega) hr0
  have b22 : h4 * r1 ≤ (2 ^ 27 - 1) * 0x3ffff03 :=
    Nat.mul_le_mul (by omega) hr1
  have b23 : h4 * r2 ≤ (2 ^ 27 - 1) * 0x3ffc0ff :=
    Nat.mul_le_mul (by omega) hr2
  have b24 : h4 * r3 ≤ (2 ^ 27 - 1) * 0x3f03fff :=
    Nat.mul_le_mul (by omega) hr3
  have b25 : h4 * r4 ≤ (2 ^ 27 - 1) * 0x00fffff :=
    Nat.mul_le_mul (by omega) hr4
  have hm1 : h0 * (r1 * 5) = h0 * r1 * 5 := by ring
  have hm2 : h1 * (r1 * 5) = h1 * r1 * 5 := by ring
  have hm3 : h2 * (r1 * 5) = h2 * r1 * 5 := by ring
  have hm4 : h3 * (r1 * 5) = h3 * r1 * 5 := by ring
  have hm5 : h4 * (r1 * 5) = h4 * r1 * 5 := by ring
  have hm6 : h0 * (r2 * 5) = h0 * r2 * 5 := by ring
  have hm7 : h1 * (r2 * 5) = h1 * r2 * 5 := by ring
  have hm8 : h2 * (r2 * 5) = h2 * r2 * 5 := by ring
  have hm9 : h3 * (r2 * 5) = h3 * r2 * 5 := by ring
  have hm10 : h4 * (r2 * 5) = h4 * r2 * 5 := by ring
  have hm11 : h0 * (r3 * 5) = h0 * r3 * 5 := by ring
  have hm12 : h1 * (r3 * 5) = h1 * r3 * 5 := by ring
  have hm13 : h2 * (r3 * 5) = h2 * r3 * 5 := by ring
  have hm14 : h3 * (r3 * 5) = h3 * r3 * 5 := by ring
  have hm15 : h4 * (r3 * 5) = h4 * r3 * 5 := by ring
  have hm16 : h0 * (r4 * 5) = h0 * r4 * 5 := by ring
  have hm17 : h1 * (r4 * 5) = h1 * r4 * 5 := by ring
  have hm18 : h2 * (r4 * 5) = h2 * r4 * 5 := by ring
  have hm19 : h3 * (r4 * 5) = h3 * r4 * 5 := by ring
  have hm20 : h4 * (r4 * 5) = h4 * r4 * 5 := by ring
  simp only [poly_mul_r, poly_mul_r_exact, u32, u64,
    Nat.mod_eq_of_lt (show r1 * 5 < 2 ^ 32 by omega),
    Nat.mod_eq_of_lt (show r2 * 5 < 2 ^ 32 by omega),
    Nat.mod_eq_of_lt (show r3 * 5 < 2 ^ 32 by omega),
    Nat.mod_eq_of_lt (show r4 * 5 < 2 ^ 32 by omega),
    hm1, hm2, hm3, hm4, hm5, hm6, hm7, hm8, hm9, hm10, hm11, hm12, hm13,
    hm14, hm15, hm16, hm17, hm18, hm19, hm20]
  simp only [Prod.mk.injEq]
  refine ⟨⟨?_, ?_, ?_, ?_, ?_⟩, ?_, ?_, ?_, ?_, ?_⟩ <;> omega

theorem mul_exact_value (r0 r1 r2 r3 r4 h0 h1 h2 h3 h4 : Nat) :
    (h0 + 2 ^ 26 * h1 + 2 ^ 52 * h2 + 2 ^ 78 * h3 + 2 ^ 104 * h4) *
        (r0 + 2 ^ 26 * r1 + 2 ^ 52 * r2 + 2 ^ 78 * r3 + 2 ^ 104 * r4) +
      5 * (h1 * r4 + h2 * r3 + h3 * r2 + h4 * r1 +
        2 ^ 26 * (h2 * r4 + h3 * r3 + h4 * r2) +
        2 ^ 52 * (h3 * r4 + h4 * r3) + 2 ^ 78 * (h4 * r4)) =
    (poly_mul_r_exact r0 r1 r2 r3 r4 h0 h1 h2 h3 h4).1 +
      2 ^ 26 * (poly_mul_r_exact r0 r1 r2 r3 r4 h0 h1 h2 h3 h4).2.1 +
      2 ^ 52 * (poly_mul_r_exact r0 r1 r2 r3 r4 h0 h1 h2 h3 h4).2.2.1 +
      2 ^ 78 * (poly_mul_r_exact r0 r1 r2 r3 r4 h0 h1 h2 h3 h4).2.2.2.1 +
      2 ^ 104 * (poly_mul_r_exact r0 r1 r2 r3 r4 h0 h1 h2 h3 h4).2.2.2.2 +
      2 ^ 130 * (h1 * r4 + h2 * r3 + h3 * r2 + h4 * r1 +
        2 ^ 26 * (h2 * r4 + h3 * r3 + h4 * r2) +
        2 ^ 52 * (h3 * r4 + h4 * r3) + 2 ^ 78 * (h4 * r4)) := by
  simp only [poly_mul_r_exact]
  ring

theorem list16 (data : List Nat) (h : data.length = 16) :
    ∃ b0 b1 b2 b3 b4 b5 b6 b7 b8 b9 b10 b11 b12 b13 b14 b15,
      data = [b0, b1, b2, b3, b4, b5, b6, b7, b8, b9, b10, b11, b12, b13,
        b14, b15] := by
  rcases data with _ | ⟨b0, data⟩
  · simp at h
  rcases data with _ | ⟨b1, data⟩
  · simp at h
  rcases data with _ | ⟨b2, data⟩
  · simp at h
  rcases data with _ | ⟨b3, data⟩
  · simp at h
  rcases data with _ | ⟨b4, data⟩
  · simp at h
  rcases data with _ | ⟨b5, data⟩
  · simp at h
  rcases data with _ | ⟨b6, data⟩
  · simp at h
  rcases data with _ | ⟨b7, data⟩
  · simp at h
  rcases data with _ | ⟨b8, data⟩
  · simp at h
  rcases data with _ | ⟨b9, data⟩
  · simp at h
  rcases data with _ | ⟨b10, data⟩
  · simp at h
  rcases data with _ | ⟨b11, data⟩
  · simp at h
  rcases data with _ | ⟨b12, data⟩
  · simp at h
  rcases data with _ | ⟨b13, data⟩
  · simp at h
  rcases data with _ | ⟨b14, data⟩
  · simp at h
  rcases data with _ | ⟨b15, data⟩
  · simp at h
  rcases data with _ | ⟨b16, data⟩
  · exact ⟨b0, b1, b2, b3, b4, b5, b6, b7, b8, b9, b10, b11, b12, b13, b14,
      b15, rfl⟩
  · simp at h

theorem parse_limbs
    (b0 b1 b2 b3 b4 b5 b6 b7 b8 b9 b10 b11 b12 b13 b14 b15 : Nat)
    (h0 : b0 < 2 ^ 8) (h1 : b1 < 2 ^ 8) (h2 : b2 < 2 ^ 8) (h3 : b3 < 2 ^ 8)
    (h4 : b4 < 2 ^ 8) (h5 : b5 < 2 ^ 8) (h6 : b6 < 2 ^ 8) (h7 : b7 < 2 ^ 8)
    (h8 : b8 < 2 ^ 8) (h9 : b9 < 2 ^ 8) (h10 : b10 < 2 ^ 8)
    (h11 : b11 < 2 ^ 8) (h12 : b12 < 2 ^ 8) (h13 : b13 < 2 ^ 8)
    (h14 : b14 < 2 ^ 8) (h15 : b15 < 2 ^ 8) :
    read32 [b0, b1, b2, b3, b4, b5, b6, b7, b8, b9, b10, b11, b12, b13, b14,
        b15] 0 &&& 0x3ffffff =
      bytesLE [b0, b1, b2, b3, b4, b5, b6, b7, b8, b9, b10, b11, b12, b13,
        b14, b15] % 2 ^ 26 ∧
    read32 [b0, b1, b2, b3, b4, b5, b6, b7, b8, b9, b10, b11, b12, b13, b14,
        b15] 3 >>> 2 &&& 0x3ffffff =
      bytesLE [b0, b1, b2, b3, b4, b5, b6, b7, b8, b9, b10, b11, b12, b13,
        b14, b15] / 2 ^ 26 % 2 ^ 26 ∧
    read32 [b0, b1, b2, b3, b4, b5, b6, b7, b8, b9, b10, b11, b12, b13, b14,
        b15] 6 >>> 4 &&& 0x3ffffff =
      bytesLE [b0, b1, b2, b3, b4, b5, b6, b7, b8, b9, b10, b11, b12, b13,
        b14, b15] / 2 ^ 52 % 2 ^ 26 ∧
    read32 [b0, b1, b2, b3, b4, b5, b6, b7, b8, b9, b10, b11, b12, b13, b14,
        b15] 9 >>> 6 &&& 0x3ffffff =
      bytesLE [b0, b1, b2, b3, b4, b5, b6, b7, b8, b9, b10, b11, b12, b13,
        b14, b15] / 2 ^ 78 % 2 ^ 26 ∧
    read32 [b0, b1, b2, b3, b4, b5, b6, b7, b8, b9, b10, b11, b12, b13, b14,
        b15] 12 >>> 8 =
      bytesLE [b0, b1, b2, b3, b4, b5, b6, b7, b8, b9, b10, b11, b12, b13,
        b14, b15] / 2 ^ 104 ∧
    bytesLE [b0, b1, b2, b3, b4, b5, b6, b7, b8, b9, b10, b11, b12, b13,
      b14, b15] / 2 ^ 104 < 2 ^ 24 := by
  have hN : bytesLE [b0, b1, b2, b3, b4, b5, b6, b7, b8, b9, b10, b11, b12,
      b13, b14, b15] =
      b0 + 2 ^ 8 * b1 + 2 ^ 16 * b2 + 2 ^ 24 * b3 + 2 ^ 32 * b4 +
        2 ^ 40 * b5 + 2 ^ 48 * b6 + 2 ^ 56 * b7 + 2 ^ 64 * b8 +
        2 ^ 72 * b9 + 2 ^ 80 * b10 + 2 ^ 88 * b11 + 2 ^ 96 * b12 +
        2 ^ 104 * b13 + 2 ^ 112 * b14 + 2 ^ 120 * b15 := by
    simp only [bytesLE, List.foldr]
    ring
  refine ⟨?_, ?_, ?_, ?_, ?_, ?_⟩
  · show (b0 + 2 ^ 8 * b1 + 2 ^ 16 * b2 + 2 ^ 24 * b3) &&& 0x3ffffff = _
    rw [and_mask26, hN]
    omega
  · show (b3 + 2 ^ 8 * b4 + 2 ^ 16 * b5 + 2 ^ 24 * b6) >>> 2 &&&
      0x3ffffff = _
    rw [Nat.shiftRight_eq_div_pow, and_mask26, hN]
    omega
  · show (b6 + 2 ^ 8 * b7 + 2 ^ 16 * b8 + 2 ^ 24 * b9) >>> 4 &&&
      0x3ffffff = _
    rw [Nat.shiftRight_eq_div_pow, and_mask26, hN]
    omega
  · show (b9 + 2 ^ 8 * b10 + 2 ^ 16 * b11 + 2 ^ 24 * b12) >>> 6 &&&
      0x3ffffff = _
    rw [Nat.shiftRight_eq_div_pow, and_mask26, hN]
    omega
  · show (b12 + 2 ^ 8 * b13 + 2 ^ 16 * b14 + 2 ^ 24 * b15) >>> 8 = _
    rw [Nat.shiftRight_eq_div_pow, hN]
    omega
  · rw [hN]
    omega

theorem bytesLE_le32x4 (w0 w1 w2 w3 : Nat) :
    bytesLE (le32 w0 ++ le32 w1 ++ le32 w2 ++ le32 w3) =
      w0 % 2 ^ 32 + 2 ^ 32 * (w1 % 2 ^ 32) + 2 ^ 64 * (w2 % 2 ^ 32) +
        2 ^ 96 * (w3 % 2 ^ 32) := by
  simp only [le32, bytesLE, List.cons_append, List.nil_append, List.foldr]
  omega

theorem eos_carry_spec (a0 a1 a2 a3 a4 : Nat)
    (ha0 : a0 < 2 ^ 26) (ha1 : a1 < 2 ^ 27) (ha2 : a2 < 2 ^ 26)
    (ha3 : a3 < 2 ^ 26) (ha4 : a4 < 2 ^ 26) :
    ∃ h0 h1 h2 h3 h4 t,
      eos_carry a0 a1 a2 a3 a4 = (h0, h1, h2, h3, h4) ∧
      a0 + 2 ^ 26 * a1 + 2 ^ 52 * a2 + 2 ^ 78 * a3 + 2 ^ 104 * a4 + 5 * t =
        h0 + 2 ^ 26 * h1 + 2 ^ 52 * h2 + 2 ^ 78 * h3 + 2 ^ 104 * h4 +
          2 ^ 130 * t ∧
      h0 < 2 ^ 26 ∧ h1 ≤ 2 ^ 26 ∧
      (h1 = 2 ^ 26 → h2 = 0 ∧ h3 = 0 ∧ h4 = 0) ∧
      h2 < 2 ^ 26 ∧ h3 < 2 ^ 26 ∧ h4 < 2 ^ 26 := by
  simp only [eos_carry, Nat.shiftRight_eq_div_pow, and_mask26]
  rw [u32_id (a2 + a1 / 2 ^ 26) (by omega)]
  rw [u32_id (a3 + (a2 + a1 / 2 ^ 26) / 2 ^ 26) (by omega)]
  rw [u32_id (a4 + (a3 + (a2 + a1 / 2 ^ 26) / 2 ^ 26) / 2 ^ 26) (by omega)]
  rw [u32_id (a0 + (a4 + (a3 + (a2 + a1 / 2 ^ 26) / 2 ^ 26) / 2 ^ 26) /
    2 ^ 26 * 5) (by omega)]
  rw [u32_id (a1 % 2 ^ 26 +
    (a0 + (a4 + (a3 + (a2 + a1 / 2 ^ 26) / 2 ^ 26) / 2 ^ 26) / 2 ^ 26 * 5) /
      2 ^ 26) (by omega)]
  have hd1 : a1 / 2 ^ 26 ≤ 1 := by omega
  have hd2 : (a2 + a1 / 2 ^ 26) / 2 ^ 26 ≤ 1 := by omega
  have hd3 : (a3 + (a2 + a1 / 2 ^ 26) / 2 ^ 26) / 2 ^ 26 ≤ 1 := by omega
  have hd4 : (a4 + (a3 + (a2 + a1 / 2 ^ 26) / 2 ^ 26) / 2 ^ 26) / 2 ^ 26 ≤
      1 := by omega
  have hd5 : (a0 + (a4 + (a3 + (a2 + a1 / 2 ^ 26) / 2 ^ 26) / 2 ^ 26) /
      2 ^ 26 * 5) / 2 ^ 26 ≤ 1 := by omega
  refine ⟨_, _, _, _, _,
    (a4 + (a3 + (a2 + a1 / 2 ^ 26) / 2 ^ 26) / 2 ^ 26) / 2 ^ 26, rfl,
    ?_, ?_, ?_, ?_, ?_, ?_, ?_⟩ <;> omega

theorem eos_select_spec (h0 h1 h2 h3 h4 : Nat)
    (hb0 : h0 < 2 ^ 26) (hb1 : h1 ≤ 2 ^ 26) (hb2 : h2 < 2 ^ 26)
    (hb3 : h3 < 2 ^ 26) (hb4 : h4 < 2 ^ 26)
    (hx : h1 = 2 ^ 26 → h2 = 0 ∧ h3 = 0 ∧ h4 = 0) :
    ∃ k0 k1 k2 k3 k4,
      eos_select h0 h1 h2 h3 h4 = (k0, k1, k2, k3, k4) ∧
      k0 + 2 ^ 26 * k1 + 2 ^ 52 * k2 + 2 ^ 78 * k3 + 2 ^ 104 * k4 =
        (h0 + 2 ^ 26 * h1 + 2 ^ 52 * h2 + 2 ^ 78 * h3 + 2 ^ 104 * h4) %
          (2 ^ 130 - 5) ∧
      k0 < 2 ^ 26 ∧ k1 ≤ 2 ^ 26 ∧ (k1 = 2 ^ 26 → k2 = 0) ∧ k2 < 2 ^ 26 ∧
      k3 < 2 ^ 26 ∧ k4 < 2 ^ 26 := by
  simp only [eos_select, Nat.shiftRight_eq_div_pow, and_mask26,
    Nat.shiftLeft_eq]
  rw [u32_id (h0 + 5) (by omega)]
  rw [u32_id (h1 + (h0 + 5) / 2 ^ 26) (by omega)]
  rw [u32_id (h2 + (h1 + (h0 + 5) / 2 ^ 26) / 2 ^ 26) (by omega)]
  rw [u32_id (h3 + (h2 + (h1 + (h0 + 5) / 2 ^ 26) / 2 ^ 26) / 2 ^ 26)
    (by omega)]
  have he1 : (h0 + 5) / 2 ^ 26 ≤ 1 := by omega
  have he2 : (h1 + (h0 + 5) / 2 ^ 26) / 2 ^ 26 ≤ 1 := by omega
  have he3 : (h2 + (h1 + (h0 + 5) / 2 ^ 26) / 2 ^ 26) / 2 ^ 26 ≤ 1 := by
    omega
  have he4 : (h3 + (h2 + (h1 + (h0 + 5) / 2 ^ 26) / 2 ^ 26) / 2 ^ 26) /
      2 ^ 26 ≤ 1 := by omega
  by_cases hge : 2 ^ 26 ≤ h4 +
      (h3 + (h2 + (h1 + (h0 + 5) / 2 ^ 26) / 2 ^ 26) / 2 ^ 26) / 2 ^ 26
  · rw [(show u32 (h4 +
        (h3 + (h2 + (h1 + (h0 + 5) / 2 ^ 26) / 2 ^ 26) / 2 ^ 26) / 2 ^ 26 +
        (2 ^ 32 - 1 * 2 ^ 26)) =
        h4 + (h3 + (h2 + (h1 + (h0 + 5) / 2 ^ 26) / 2 ^ 26) / 2 ^ 26) /
          2 ^ 26 - 2 ^ 26 by
      simp only [u32]; omega)]
    rw [(show u32 ((h4 +
        (h3 + (h2 + (h1 + (h0 + 5) / 2 ^ 26) / 2 ^ 26) / 2 ^ 26) / 2 ^ 26 -
        2 ^ 26) / 2 ^ (32 - 1) + (2 ^ 32 - 1)) = 0xffffffff by
      simp only [u32]; omega)]
    rw [(show (0xffffffff ^^^ 0xffffffff : Nat) = 0 by decide)]
    simp only [and_mask32, Nat.and_zero, Nat.zero_or]
    have hmodp : (h0 + 2 ^ 26 * h1 + 2 ^ 52 * h2 + 2 ^ 78 * h3 +
        2 ^ 104 * h4) % (2 ^ 130 - 5) =
        h0 + 2 ^ 26 * h1 + 2 ^ 52 * h2 + 2 ^ 78 * h3 + 2 ^ 104 * h4 -
          (2 ^ 130 - 5) := by
      omega
    refine ⟨_, _, _, _, _, rfl, ?_, ?_, ?_, ?_, ?_, ?_, ?_⟩ <;> omega
  · rw [(show u32 (h4 +
        (h3 + (h2 + (h1 + (h0 + 5) / 2 ^ 26) / 2 ^ 26) / 2 ^ 26) / 2 ^ 26 +
        (2 ^ 32 - 1 * 2 ^ 26)) =
        h4 + (h3 + (h2 + (h1 + (h0 + 5) / 2 ^ 26) / 2 ^ 26) / 2 ^ 26) /
          2 ^ 26 + (2 ^ 32 - 1 * 2 ^ 26) by
      simp only [u32]; omega)]
    rw [(show u32 ((h4 +
        (h3 + (h2 + (h1 + (h0 + 5) / 2 ^ 26) / 2 ^ 26) / 2 ^ 26) / 2 ^ 26 +
        (2 ^ 32 - 1 * 2 ^ 26)) / 2 ^ (32 - 1) + (2 ^ 32 - 1)) = 0 by
      simp only [u32]; omega)]
    simp only [Nat.and_zero]
    rw [(show ((0 : Nat) ^^^ 0xffffffff) = 0xffffffff by decide)]
    simp only [and_mask32, Nat.or_zero]
    have hmodp : (h0 + 2 ^ 26 * h1 + 2 ^ 52 * h2 + 2 ^ 78 * h3 +
        2 ^ 104 * h4) % (2 ^ 130 - 5) =
        h0 + 2 ^ 26 * h1 + 2 ^ 52 * h2 + 2 ^ 78 * h3 + 2 ^ 104 * h4 := by
      omega
    refine ⟨_, _, _, _, _, rfl, ?_, ?_, ?_, ?_, ?_, ?_, ?_⟩ <;> omega

theorem eos_repack_spec (h0 h1 h2 h3 h4 : Nat)
    (hb0 : h0 < 2 ^ 26) (hb1 : h1 ≤ 2 ^ 26) (hb2 : h2 < 2 ^ 26)
    (hb3 : h3 < 2 ^ 26) (hb4 : h4 < 2 ^ 26)
    (hx : h1 = 2 ^ 26 → h2 = 0) :
    ∃ w0 w1 w2 w3,
      eos_repack h0 h1 h2 h3 h4 = (w0, w1, w2, w3) ∧
      w0 + 2 ^ 32 * w1 + 2 ^ 64 * w2 + 2 ^ 96 * w3 =
        (h0 + 2 ^ 26 * h1 + 2 ^ 52 * h2 + 2 ^ 78 * h3 + 2 ^ 104 * h4) %
          2 ^ 128 ∧
      w0 < 2 ^ 32 ∧ w1 < 2 ^ 32 ∧ w2 < 2 ^ 32 ∧ w3 < 2 ^ 32 := by
  simp only [eos_repack, Nat.shiftLeft_eq, Nat.shiftRight_eq_div_pow,
    and_mask32, u32]
  by_cases hone : h1 = 2 ^ 26
  · have h2z := hx hone
    subst h2z
    subst hone
    rw [(show (2 ^ 26 * 2 ^ 26 % 2 ^ 32 : Nat) = 0 by decide)]
    rw [(show ((0 : Nat) * 2 ^ 20 % 2 ^ 32) = 0 by decide)]
    rw [(show ((0 : Nat) / 2 ^ 12) = 0 by decide)]
    simp only [Nat.or_zero, Nat.zero_or]
    rw [lor_eq_add 8 (h3 / 2 ^ 18) (h4 * 2 ^ 8 % 2 ^ 32) (by omega)
      (by omega)]
    refine ⟨_, _, _, _, rfl, ?_, ?_, ?_, ?_, ?_⟩ <;> omega
  · rw [lor_eq_add 26 h0 (h1 * 2 ^ 26 % 2 ^ 32) hb0 (by omega),
      lor_eq_add 20 (h1 / 2 ^ 6) (h2 * 2 ^ 20 % 2 ^ 32) (by omega)
        (by omega),
      lor_eq_add 14 (h2 / 2 ^ 12) (h3 * 2 ^ 14 % 2 ^ 32) (by omega)
        (by omega),
      lor_eq_add 8 (h3 / 2 ^ 18) (h4 * 2 ^ 8 % 2 ^ 32) (by omega)
        (by omega)]
    refine ⟨_, _, _, _, rfl, ?_, ?_, ?_, ?_, ?_⟩ <;> omega

theorem eos_pad_spec (h0 h1 h2 h3 s0 s1 s2 s3 : Nat)
    (hb0 : h0 < 2 ^ 32) (hb1 : h1 < 2 ^ 32) (hb2 : h2 < 2 ^ 32)
    (hb3 : h3 < 2 ^ 32) (hs0 : s0 < 2 ^ 32) (hs1 : s1 < 2 ^ 32)
    (hs2 : s2 < 2 ^ 32) (hs3 : s3 < 2 ^ 32) :
    ∃ m0 m1 m2 m3,
      eos_pad h0 h1 h2 h3 s0 s1 s2 s3 = (m0, m1, m2, m3) ∧
      m0 + 2 ^ 32 * m1 + 2 ^ 64 * m2 + 2 ^ 96 * m3 =
        (h0 + 2 ^ 32 * h1 + 2 ^ 64 * h2 + 2 ^ 96 * h3 +
          (s0 + 2 ^ 32 * s1 + 2 ^ 64 * s2 + 2 ^ 96 * s3)) % 2 ^ 128 ∧
      m0 < 2 ^ 32 ∧ m1 < 2 ^ 32 ∧ m2 < 2 ^ 32 ∧ m3 < 2 ^ 32 := by
  simp only [eos_pad, Nat.shiftRight_eq_div_pow, u32, u64]
  refine ⟨_, _, _, _, rfl, ?_, ?_, ?_, ?_, ?_⟩ <;> omega

theorem eos_value (st : Poly1305)
    (ha0 : st.a0 < 2 ^ 26) (ha1 : st.a1 < 2 ^ 27) (ha2 : st.a2 < 2 ^ 26)
    (ha3 : st.a3 < 2 ^ 26) (ha4 : st.a4 < 2 ^ 26)
    (hs0 : st.s0 < 2 ^ 32) (hs1 : st.s1 < 2 ^ 32) (hs2 : st.s2 < 2 ^ 32)
    (hs3 : st.s3 < 2 ^ 32) :
    ∃ w0 w1 w2 w3,
      st.process_end_of_stream =
        { st with a0 := w0, a1 := w1, a2 := w2, a3 := w3 } ∧
      w0 < 2 ^ 32 ∧ w1 < 2 ^ 32 ∧ w2 < 2 ^ 32 ∧ w3 < 2 ^ 32 ∧
      wordsVal (w0, w1, w2, w3) =
        (limbsVal st.limbs % (2 ^ 130 - 5) + wordsVal st.sVec) % 2 ^ 128 := by
  obtain ⟨h0, h1, h2, h3, h4, t, hc1, hceq, hh0, hh1, hhx, hh2, hh3, hh4⟩ :=
    eos_carry_spec st.a0 st.a1 st.a2 st.a3 st.a4 ha0 ha1 ha2 ha3 ha4
  obtain ⟨k0, k1, k2, k3, k4, hsel, hseq, hk0, hk1, hkx, hk2, hk3, hk4⟩ :=
    eos_select_spec h0 h1 h2 h3 h4 hh0 hh1 hh2 hh3 hh4 hhx
  obtain ⟨w0, w1, w2, w3, hrep, hreq, hw0, hw1, hw2, hw3⟩ :=
    eos_repack_spec k0 k1 k2 k3 k4 hk0 hk1 hk2 hk3 hk4 hkx
  obtain ⟨m0, m1, m2, m3, hpd, hpeq, hm0, hm1, hm2, hm3⟩ :=
    eos_pad_spec w0 w1 w2 w3 st.s0 st.s1 st.s2 st.s3 hw0 hw1 hw2 hw3 hs0
      hs1 hs2 hs3
  refine ⟨m0, m1, m2, m3, ?_, hm0, hm1, hm2, hm3, ?_⟩
  · simp only [Poly1305.process_end_of_stream, hc1, hsel, hrep, hpd]
  · simp only [wordsVal, limbsVal, Poly1305.limbs, Poly1305.sVec]
    omega

/-- C1: for a Poly1305 state whose multiplier limbs satisfy the clamp masks
and whose accumulator limbs are within bounds (each below 2^26, one extra
bit of slack in limb 1), and for any 16-byte block, process_block succeeds,
coincides with the truncation-free computation (so no 32-bit or 64-bit
intermediate overflows), leaves the accumulator value congruent to
((a + m + hibit * 2^128) * r) modulo 2^130 - 5 where hibit is present
exactly when the state is not finalized, and re-establishes the same limb
bounds. -/
theorem poly1305_process_block_correct (st : Poly1305) (data : List Nat)
    (hlen : data.length = POLY1305_BLOCKSIZE)
    (hbytes : ∀ b ∈ data, b < 2 ^ 8)
    (hr0 : st.r0 &&& 0x3ffffff = st.r0) (hr1 : st.r1 &&& 0x3ffff03 = st.r1)
    (hr2 : st.r2 &&& 0x3ffc0ff = st.r2) (hr3 : st.r3 &&& 0x3f03fff = st.r3)
    (hr4 : st.r4 &&& 0x00fffff = st.r4)
    (ha0 : st.a0 < 2 ^ 26) (ha1 : st.a1 < 2 ^ 27) (ha2 : st.a2 < 2 ^ 26)
    (ha3 : st.a3 < 2 ^ 26) (ha4 : st.a4 < 2 ^ 26) :
    ∃ st', st.process_block data = some st' ∧
      st.process_block_exact data = some st' ∧
      Nat.ModEq (2 ^ 130 - 5) (limbsVal st'.limbs)
        ((limbsVal st.limbs + bytesLE data +
            (if st.is_finalized then 0 else 2 ^ 128)) * limbsVal st.rVec) ∧
      st'.a0 < 2 ^ 26 ∧ st'.a1 < 2 ^ 27 ∧ st'.a2 < 2 ^ 26 ∧
      st'.a3 < 2 ^ 26 ∧ st'.a4 < 2 ^ 26 := by
  have hr0' : st.r0 ≤ 0x3ffffff := by rw [← hr0]; exact Nat.and_le_right
  have hr1' : st.r1 ≤ 0x3ffff03 := by rw [← hr1]; exact Nat.and_le_right
  have hr2' : st.r2 ≤ 0x3ffc0ff := by rw [← hr2]; exact Nat.and_le_right
  have hr3' : st.r3 ≤ 0x3f03fff := by rw [← hr3]; exact Nat.and_le_right
  have hr4' : st.r4 ≤ 0x00fffff := by rw [← hr4]; exact Nat.and_le_right
  simp only [POLY1305_BLOCKSIZE] at hlen
  obtain ⟨b0, b1, b2, b3, b4, b5, b6, b7, b8, b9, b10, b11, b12, b13, b14,
    b15, rfl⟩ := list16 data hlen
  have hb0 : b0 < 2 ^ 8 := hbytes b0 (by simp)
  have hb1 : b1 < 2 ^ 8 := hbytes b1 (by simp)
  have hb2 : b2 < 2 ^ 8 := hbytes b2 (by simp)
  have hb3 : b3 < 2 ^ 8 := hbytes b3 (by simp)
  have hb4 : b4 < 2 ^ 8 := hbytes b4 (by simp)
  have hb5 : b5 < 2 ^ 8 := hbytes b5 (by simp)
  have hb6 : b6 < 2 ^ 8 := hbytes b6 (by simp)
  have hb7 : b7 < 2 ^ 8 := hbytes b7 (by simp)
  have hb8 : b8 < 2 ^ 8 := hbytes b8 (by simp)
  have hb9 : b9 < 2 ^ 8 := hbytes b9 (by simp)
  have hb10 : b10 < 2 ^ 8 := hbytes b10 (by simp)
  have hb11 : b11 < 2 ^ 8 := hbytes b11 (by simp)
  have hb12 : b12 < 2 ^ 8 := hbytes b12 (by simp)
  have hb13 : b13 < 2 ^ 8 := hbytes b13 (by simp)
  have hb14 : b14 < 2 ^ 8 := hbytes b14 (by simp)
  have hb15 : b15 < 2 ^ 8 := hbytes b15 (by simp)
  obtain ⟨hm0, hm1, hm2, hm3, hm4, hm4lt⟩ := parse_limbs b0 b1 b2 b3 b4 b5
    b6 b7 b8 b9 b10 b11 b12 b13 b14 b15 hb0 hb1 hb2 hb3 hb4 hb5 hb6 hb7 hb8
    hb9 hb10 hb11 hb12 hb13 hb14 hb15
  set N := bytesLE [b0, b1, b2, b3, b4, b5, b6, b7, b8, b9, b10, b11, b12,
    b13, b14, b15] with hNdef
  have hIF24 : (if st.is_finalized then 0 else 2 ^ 24) ≤ 2 ^ 24 := by
    cases hf : st.is_finalized <;> simp [hf]
  have hhib : read32 [b0, b1, b2, b3, b4, b5, b6, b7, b8, b9, b10, b11, b12,
      b13, b14, b15] 12 >>> 8 |||
        (if st.is_finalized then 0 else 1 <<< 24) =
      N / 2 ^ 104 + (if st.is_finalized then 0 else 2 ^ 24) := by
    cases hf : st.is_finalized
    · simp only [hf, Bool.false_eq_true, if_false]
      rw [hm4, (by decide : (1 <<< 24 : Nat) = 2 ^ 24)]
      exact lor_eq_add 24 (N / 2 ^ 104) (2 ^ 24) hm4lt (by decide)
    · simp only [hf, if_true]
      rw [Nat.or_zero, Nat.add_zero]
      exact hm4
  have hadd :
      poly_add_m st.is_finalized st.a0 st.a1 st.a2 st.a3 st.a4
        [b0, b1, b2, b3, b4, b5, b6, b7, b8, b9, b10, b11, b12, b13, b14,
          b15] =
      (st.a0 + N % 2 ^ 26, st.a1 + N / 2 ^ 26 % 2 ^ 26,
       st.a2 + N / 2 ^ 52 % 2 ^ 26, st.a3 + N / 2 ^ 78 % 2 ^ 26,
       st.a4 + (N / 2 ^ 104 +
         (if st.is_finalized then 0 else 2 ^ 24))) := by
    simp only [poly_add_m]
    rw [hm0, hm1, hm2, hm3, hhib]
    rw [u32_id (st.a0 + N % 2 ^ 26) (by omega),
      u32_id (st.a1 + N / 2 ^ 26 % 2 ^ 26) (by omega),
      u32_id (st.a2 + N / 2 ^ 52 % 2 ^ 26) (by omega),
      u32_id (st.a3 + N / 2 ^ 78 % 2 ^ 26) (by omega),
      u32_id (st.a4 + (N / 2 ^ 104 +
        (if st.is_finalized then 0 else 2 ^ 24))) (by omega)]
  have hadd_exact :
      poly_add_m_exact st.is_finalized st.a0 st.a1 st.a2 st.a3 st.a4
        [b0, b1, b2, b3, b4, b5, b6, b7, b8, b9, b10, b11, b12, b13, b14,
          b15] =
      (st.a0 + N % 2 ^ 26, st.a1 + N / 2 ^ 26 % 2 ^ 26,
       st.a2 + N / 2 ^ 52 % 2 ^ 26, st.a3 + N / 2 ^ 78 % 2 ^ 26,
       st.a4 + (N / 2 ^ 104 +
         (if st.is_finalized then 0 else 2 ^ 24))) := by
    simp only [poly_add_m_exact]
    rw [hm0, hm1, hm2, hm3, hhib]
  obtain ⟨hmeq, hd0, hd1, hd2, hd3, hd4⟩ :=
    mul_agrees st.r0 st.r1 st.r2 st.r3 st.r4
      (st.a0 + N % 2 ^ 26) (st.a1 + N / 2 ^ 26 % 2 ^ 26)
      (st.a2 + N / 2 ^ 52 % 2 ^ 26) (st.a3 + N / 2 ^ 78 % 2 ^ 26)
      (st.a4 + (N / 2 ^ 104 + (if st.is_finalized then 0 else 2 ^ 24)))
      hr0' hr1' hr2' hr3' hr4' (by omega) (by omega) (by omega) (by omega)
      (by omega)
  obtain ⟨D0, D1, D2, D3, D4, hD⟩ :
      ∃ D0 D1 D2 D3 D4,
        poly_mul_r_exact st.r0 st.r1 st.r2 st.r3 st.r4
          (st.a0 + N % 2 ^ 26) (st.a1 + N / 2 ^ 26 % 2 ^ 26)
          (st.a2 + N / 2 ^ 52 % 2 ^ 26) (st.a3 + N / 2 ^ 78 % 2 ^ 26)
          (st.a4 + (N / 2 ^ 104 +
            (if st.is_finalized then 0 else 2 ^ 24))) =
          (D0, D1, D2, D3, D4) :=
    ⟨_, _, _, _, _, rfl⟩
  simp only [hD] at hmeq hd0 hd1 hd2 hd3 hd4
  have hca := carry_agrees D0 D1 D2 D3 D4 hd0 hd1 hd2 hd3 hd4
  obtain ⟨k, g0, g1, g2, g3, g4, hcx, hceq, hg0, hg1, hg2, hg3, hg4⟩ :=
    carry_exact_spec D0 D1 D2 D3 D4 hd0 hd1 hd2 hd3 hd4
  refine ⟨{ st with a0 := g0, a1 := g1, a2 := g2, a3 := g3, a4 := g4 },
    ?_, ?_, ?_, hg0, ?_, hg2, hg3, hg4⟩
  · simp only [Poly1305.process_block, hadd, hmeq, hca, hcx]
    rw [if_neg (by simp [POLY1305_BLOCKSIZE])]
  · simp only [Poly1305.process_block_exact, hadd_exact, hD, hcx]
    rw [if_neg (by simp [POLY1305_BLOCKSIZE])]
  · have hIF2 : (if st.is_finalized then (0 : Nat) else 2 ^ 128) =
        2 ^ 104 * (if st.is_finalized then 0 else 2 ^ 24) := by
      cases hf : st.is_finalized <;> simp [hf]
    have hiden := mul_exact_value st.r0 st.r1 st.r2 st.r3 st.r4
      (st.a0 + N % 2 ^ 26) (st.a1 + N / 2 ^ 26 % 2 ^ 26)
      (st.a2 + N / 2 ^ 52 % 2 ^ 26) (st.a3 + N / 2 ^ 78 % 2 ^ 26)
      (st.a4 + (N / 2 ^ 104 + (if st.is_finalized then 0 else 2 ^ 24)))
    simp only [hD] at hiden
    simp only [Poly1305.limbs, Poly1305.rVec, limbsVal]
    rw [hIF2]
    have hfac : st.a0 + 2 ^ 26 * st.a1 + 2 ^ 52 * st.a2 + 2 ^ 78 * st.a3 +
        2 ^ 104 * st.a4 + N +
        2 ^ 104 * (if st.is_finalized then 0 else 2 ^ 24) =
        st.a0 + N % 2 ^ 26 + 2 ^ 26 * (st.a1 + N / 2 ^ 26 % 2 ^ 26) +
          2 ^ 52 * (st.a2 + N / 2 ^ 52 % 2 ^ 26) +
          2 ^ 78 * (st.a3 + N / 2 ^ 78 % 2 ^ 26) +
          2 ^ 104 * (st.a4 + (N / 2 ^ 104 +
            (if st.is_finalized then 0 else 2 ^ 24))) := by
      omega
    rw [hfac]
    unfold Nat.ModEq
    omega
  · show g1 < 2 ^ 27
    omega

/-- C1 witness: the theorem instantiated at the all-zero 32-byte key and the
all-zero 16-byte block. -/
theorem poly1305_process_block_correct_witness :
    ∃ st',
      (Poly1305.init (List.replicate 32 0)).process_block
          (List.replicate 16 0) = some st' ∧
      (Poly1305.init (List.replicate 32 0)).process_block_exact
          (List.replicate 16 0) = some st' ∧
      Nat.ModEq (2 ^ 130 - 5) (limbsVal st'.limbs)
        ((limbsVal (Poly1305.init (List.replicate 32 0)).limbs +
            bytesLE (List.replicate 16 0) +
            (if (Poly1305.init (List.replicate 32 0)).is_finalized then 0
              else 2 ^ 128)) *
          limbsVal (Poly1305.init (List.replicate 32 0)).rVec) ∧
      st'.a0 < 2 ^ 26 ∧ st'.a1 < 2 ^ 27 ∧ st'.a2 < 2 ^ 26 ∧
      st'.a3 < 2 ^ 26 ∧ st'.a4 < 2 ^ 26 :=
  poly1305_process_block_correct (Poly1305.init (List.replicate 32 0))
    (List.replicate 16 0) (by decide) (by decide) (by decide) (by decide)
    (by decide) (by decide) (by decide) (by decide) (by decide) (by decide)
    (by decide) (by decide)

/-- C2: for a Poly1305 state with no pending partial block, in-bound
accumulator limbs of value H and arbitrary 32-bit pad words s, finalize
succeeds and emits a 16-byte tag whose little-endian value is
((H mod (2^130 - 5)) + s) mod 2^128: the branch-free mask select inside
process_end_of_stream produces exactly the canonical representative of
H modulo the prime before the pad is added. -/
theorem poly1305_finalize_tag_correct (st : Poly1305)
    (hfin : st.is_finalized = false) (hlo : st.leftover = 0)
    (ha0 : st.a0 < 2 ^ 26) (ha1 : st.a1 < 2 ^ 27) (ha2 : st.a2 < 2 ^ 26)
    (ha3 : st.a3 < 2 ^ 26) (ha4 : st.a4 < 2 ^ 26)
    (hs0 : st.s0 < 2 ^ 32) (hs1 : st.s1 < 2 ^ 32) (hs2 : st.s2 < 2 ^ 32)
    (hs3 : st.s3 < 2 ^ 32) :
    ∃ t st', st.finalize = .ok (t, st') ∧
      t.length = POLY1305_BLOCKSIZE ∧ (∀ b ∈ t, b < 2 ^ 8) ∧
      bytesLE t =
        (limbsVal st.limbs % (2 ^ 130 - 5) + wordsVal st.sVec) %
          2 ^ 128 := by
  have hne : ¬st.is_finalized = true := by
    rw [hfin]; exact Bool.false_ne_true
  have hz : ¬st.leftover ≠ 0 := by omega
  obtain ⟨w0, w1, w2, w3, heos, hw0, hw1, hw2, hw3, hval⟩ :=
    eos_value { st with is_finalized := true } ha0 ha1 ha2 ha3 ha4 hs0 hs1
      hs2 hs3
  have hlen32 : (le32 w0 ++ le32 w1 ++ le32 w2 ++ le32 w3).length =
      POLY1305_BLOCKSIZE := by
    simp [le32, POLY1305_BLOCKSIZE]
  refine ⟨le32 w0 ++ le32 w1 ++ le32 w2 ++ le32 w3,
    { st with is_finalized := true,
              a0 := w0, a1 := w1, a2 := w2, a3 := w3 }, ?_, hlen32, ?_, ?_⟩
  · simp only [Poly1305.finalize, if_neg hne, if_neg hz, heos,
      tag_from_slice_of_length _ _ hlen32]
  · intro b hb
    simp only [le32, List.mem_append, List.mem_cons,
      List.not_mem_nil, or_false] at hb
    omega
  · have hb := bytesLE_le32x4 w0 w1 w2 w3
    rw [Nat.mod_eq_of_lt hw0, Nat.mod_eq_of_lt hw1, Nat.mod_eq_of_lt hw2,
      Nat.mod_eq_of_lt hw3] at hb
    simp only [wordsVal, limbsVal, Poly1305.limbs, Poly1305.sVec] at hval ⊢
    rw [hb]
    omega

/-- C2 witness: the theorem instantiated at the state freshly initialized
with the all-one 32-byte key, which has no pending block and a zero
accumulator. -/
theorem poly1305_finalize_tag_correct_witness :
    ∃ t st',
      (Poly1305.init (List.replicate 32 1)).finalize = .ok (t, st') ∧
      t.length = POLY1305_BLOCKSIZE ∧ (∀ b ∈ t, b < 2 ^ 8) ∧
      bytesLE t =
        (limbsVal (Poly1305.init (List.replicate 32 1)).limbs %
            (2 ^ 130 - 5) +
          wordsVal (Poly1305.init (List.replicate 32 1)).sVec) % 2 ^ 128 :=
  poly1305_finalize_tag_correct (Poly1305.init (List.replicate 32 1))
    (by decide) (by decide) (by decide) (by decide) (by decide) (by decide)
    (by decide) (by decide) (by decide) (by decide) (by decide)

/-- C4: counter-evidence for the HMAC reset claim.  Hmac::reset re-feeds
ipad into the current inner hasher without re-initialising it, so reset from
a fresh (non-finalized) state leaves the inner hasher with ipad absorbed
twice: the post-reset state differs from a fresh init with the same key, the
tag of a subsequent finalize differs, and after a finalize a double reset
differs from a single reset; all exhibited at the 128-zero-byte key.  Only
reset from the Finalized state (where finalize swapped in a fresh inner
hasher) behaves as the claim demands. -/
theorem hmac_reset_not_reinit :
    ((Hmac.init (List.replicate 128 0)).reset ≠
      Hmac.init (List.replicate 128 0)) ∧
    ((Hmac.init (List.replicate 128 0)).reset.ipad_hasher.absorbed.length =
      256 ∧
      (Hmac.init (List.replicate 128 0)).ipad_hasher.absorbed.length = 128) ∧
    (hmacTagOf (Hmac.init (List.replicate 128 0)).reset.finalize ≠
      hmacTagOf (Hmac.init (List.replicate 128 0)).finalize) ∧
    (∃ t, (Hmac.init (List.replicate 128 0)).finalize =
      .ok (t, { Hmac.init (List.replicate 128 0) with
        is_finalized := true, ipad_hasher := Sha512.default })) ∧
    (({ Hmac.init (List.replicate 128 0) with
        is_finalized := true,
        ipad_hasher := Sha512.default } : Hmac).reset.reset ≠
      ({ Hmac.init (List.replicate 128 0) with
        is_finalized := true,
        ipad_hasher := Sha512.default } : Hmac).reset) := by
  refine ⟨?_, by decide, ?_, ⟨_, hmac_finalize_ok _ rfl⟩, ?_⟩
  · intro h
    have := congrArg (fun s : Hmac => s.ipad_hasher.absorbed.length) h
    revert this
    decide
  · intro h
    rw [hmac_finalize_ok _ rfl, hmac_finalize_ok _ rfl] at h
    simp only [hmacTagOf, Except.map] at h
    exact absurd (Except.ok.inj h) (by decide)
  · intro h
    have := congrArg (fun s : Hmac => s.ipad_hasher.absorbed.length) h
    revert this
    decide

end Orion
